import Mathlib

/-!
Verification of the viser triangle-splatting renderer.

This file gives a shallow embedding, over exact rationals, of the triangle
splat pipeline:

- the depth sorter of the sort worker (function sortAndPrepareIndexBuffer),
- the geometry builder (function createTriangleSplatsGeometry of
  TriangleSplatsHelpers.ts),
- the screen-space parts of the vertex and fragment shaders of
  createTriangleSplatsMaterial (edge shrinking, phi scale, soft alpha,
  barycentric interpolation, pixel projection).

Scalar arithmetic of the JavaScript and GLSL code (IEEE floats) is modelled
by exact rational arithmetic.  The GLSL primitives pow and length have no
exact rational counterpart; the embedding takes them as function parameters
(pw for pow, sqrtQ applied to the squared norm for length), so that theorems
quantify over them and concrete runs instantiate them with exact values.
Mutable typed arrays become lists or explicitly threaded functions
(Function.update models an array store).
-/

namespace Viser

/-! ## Depth sorter (TriangleSortWorker, function sortAndPrepareIndexBuffer)

The worker receives numTriangles, a flat centers array and a row-major view
matrix.  It computes one camera-space depth per triangle, maps depths to
16-bit buckets and counting-sorts the triangles, then emits the three corner
indices of each triangle in sorted order.
-/

/-- Per-triangle camera-space depths.  Mirrors the first loop of
sortAndPrepareIndexBuffer: z = m20*x + m21*y + m22*z + m23 with
m20 = viewMatrix[2], m21 = viewMatrix[6], m22 = viewMatrix[10],
m23 = viewMatrix[14]. -/
def sorterDepths (numTriangles : Nat) (centers viewMatrix : List ℚ) : List ℚ :=
  let m20 := viewMatrix.getD 2 0
  let m21 := viewMatrix.getD 6 0
  let m22 := viewMatrix.getD 10 0
  let m23 := viewMatrix.getD 14 0
  (List.range numTriangles).map (fun i =>
    m20 * centers.getD (i * 3) 0 + m21 * centers.getD (i * 3 + 1) 0 +
      m22 * centers.getD (i * 3 + 2) 0 + m23)

/-- Running minimum of the depths.  The JS loop starts from Infinity, so for a
nonempty list the result is the least element; we seed the fold with the head
(for the empty list the seed 0 is irrelevant: both branches of the sorter
return the empty output). -/
def sorterMinDepth (numTriangles : Nat) (centers viewMatrix : List ℚ) : ℚ :=
  let ds := sorterDepths numTriangles centers viewMatrix
  ds.foldl min (ds.headD 0)

/-- Running maximum of the depths (JS seed is -Infinity). -/
def sorterMaxDepth (numTriangles : Nat) (centers viewMatrix : List ℚ) : ℚ :=
  let ds := sorterDepths numTriangles centers viewMatrix
  ds.foldl max (ds.headD 0)

/-- The 16-bit depth buckets: depthsInt[i] = floor((z_i - minDepth) * scale)
with scale = 65535 / (maxDepth - minDepth).  The value is nonnegative, so
Int.toNat loses nothing; it mirrors storage into a Uint32Array. -/
def sorterBuckets (numTriangles : Nat) (centers viewMatrix : List ℚ) : List Nat :=
  let minDepth := sorterMinDepth numTriangles centers viewMatrix
  let maxDepth := sorterMaxDepth numTriangles centers viewMatrix
  let scale := 65535 / (maxDepth - minDepth)
  (sorterDepths numTriangles centers viewMatrix).map
    (fun z => (⌊(z - minDepth) * scale⌋).toNat)

/-- The loop `for i { counts[depthsInt[i]]++ }` over a zero-initialised
Uint32Array(65536), modelled as a fold updating a function. -/
def countsLoop (depthsInt : List Nat) : Nat → Nat :=
  (List.range depthsInt.length).foldl
    (fun counts i =>
      Function.update counts (depthsInt.getD i 0) (counts (depthsInt.getD i 0) + 1))
    (fun _ => 0)

/-- The exclusive-prefix-sum loop building offsets from counts:
`for i in 0..65536 { offsets[i] = currentOffset; currentOffset += counts[i] }`.
First component is the offsets array, second the final currentOffset. -/
def offsetsLoop (counts : Nat → Nat) : (Nat → Nat) × Nat :=
  (List.range 65536).foldl
    (fun st i => (Function.update st.1 i st.2, st.2 + counts i))
    ((fun _ => 0), 0)

/-- The placement loop
`for i { sortedIndices[offsets[depthsInt[i]]++] = i }`.
State: (offsets array, sortedIndices array), both as functions. -/
def placeLoop (depthsInt : List Nat) (offsets0 : Nat → Nat) : (Nat → Nat) × (Nat → Nat) :=
  (List.range depthsInt.length).foldl
    (fun st i =>
      let b := depthsInt.getD i 0
      (Function.update st.1 b (st.1 b + 1), Function.update st.2 (st.1 b) i))
    (offsets0, fun _ => 0)

/-- The sortedIndices array produced by the counting sort, as a list. -/
def sortedIndicesList (depthsInt : List Nat) : List Nat :=
  (List.range depthsInt.length).map
    (placeLoop depthsInt (offsetsLoop (countsLoop depthsInt)).1).2

/-- Full embedding of sortAndPrepareIndexBuffer.  If the depth range is at
most 1e-7 the identity index buffer is returned; otherwise the triangles are
counting-sorted by bucket and each sorted triangle contributes its three
corner indices. -/
def sortAndPrepareIndexBuffer (numTriangles : Nat) (centers viewMatrix : List ℚ) :
    List Nat :=
  let minDepth := sorterMinDepth numTriangles centers viewMatrix
  let maxDepth := sorterMaxDepth numTriangles centers viewMatrix
  let depthRange := maxDepth - minDepth
  if depthRange ≤ 1 / 10000000 then
    (List.range numTriangles).flatMap (fun i => [i * 3, i * 3 + 1, i * 3 + 2])
  else
    let depthsInt := sorterBuckets numTriangles centers viewMatrix
    let sorted := sortedIndicesList depthsInt
    sorted.flatMap (fun oldTriIdx => [oldTriIdx * 3, oldTriIdx * 3 + 1, oldTriIdx * 3 + 2])

/-! ### Reference stable sort (specification side)

The specification describes the sorter as a stable ascending sort by bucket.
stableSortByKey is stable insertion sort: an element is inserted before the
first element whose key is not smaller, so elements with equal keys keep
their input order. -/

/-- Insert x into l, before the first element whose key is ≥ key x. -/
def stableInsert (key : Nat → Nat) (x : Nat) : List Nat → List Nat
  | [] => [x]
  | y :: ys => if key y < key x then y :: stableInsert key x ys else x :: y :: ys

/-- Stable insertion sort, ascending by key. -/
def stableSortByKey (key : Nat → Nat) : List Nat → List Nat
  | [] => []
  | x :: xs => stableInsert key x (stableSortByKey key xs)

/-- Elements of l grouped by key value: for each bucket value in ascending
order, the elements of l having that key, in their order in l.  This is the
defining picture of a stable counting sort with numBuckets buckets. -/
def bucketGroups (key : Nat → Nat) (l : List Nat) (numBuckets : Nat) : List Nat :=
  (List.range numBuckets).flatMap (fun b => l.filter (fun i => key i = b))

/-- Specification-side sorter, written after the words of the spec: compute
z_i = M[2]*c_x + M[6]*c_y + M[10]*c_z + M[14]; if max - min ≤ 1e-7 emit the
identity permutation, else stably sort the triangles in ascending order of
bucket b_i = floor((z_i - min) * 65535 / (max - min)) and emit corner indices
3*t, 3*t+1, 3*t+2 for each sorted triangle t. -/
def sorterSpec (numTriangles : Nat) (centers viewMatrix : List ℚ) : List Nat :=
  let zs := sorterDepths numTriangles centers viewMatrix
  let zmin := zs.foldl min (zs.headD 0)
  let zmax := zs.foldl max (zs.headD 0)
  if zmax - zmin ≤ 1 / 10000000 then
    (List.range numTriangles).flatMap (fun i => [i * 3, i * 3 + 1, i * 3 + 2])
  else
    let bucket := fun (i : Nat) => (⌊(zs.getD i 0 - zmin) * 65535 / (zmax - zmin)⌋).toNat
    (stableSortByKey bucket (List.range numTriangles)).flatMap
      (fun t => [t * 3, t * 3 + 1, t * 3 + 2])

/-! ## Geometry builder (createTriangleSplatsGeometry) -/

/-- The arrays produced by createTriangleSplatsGeometry.  Index-valued
Float32Array attributes (vertex ids) are modelled as Nat lists; scalar
attributes as rational lists.  The attributes are listed in the order the
source creates them; shData is present exactly when features_dc is, and
unrolledColors exactly when colors is. -/
structure TriangleSplatsGeometryData where
  unrolledVertices : List ℚ
  triangleCenters : List ℚ
  unrolledBarycentrics : List ℚ
  unrolledOpacities : List ℚ
  triangleMinWeights : List ℚ
  vertexIndices : List Nat
  triangleVertexIndices0 : List Nat
  triangleVertexIndices1 : List Nat
  triangleVertexIndices2 : List Nat
  triangleVertices0 : List ℚ
  triangleVertices1 : List ℚ
  triangleVertices2 : List ℚ
  triangleOpacities0 : List ℚ
  triangleOpacities1 : List ℚ
  triangleOpacities2 : List ℚ
  shData : Option (List ℚ)
  unrolledColors : Option (List ℚ)
  indices : List Nat
  deriving DecidableEq

/-- Embedding of createTriangleSplatsGeometry.  Two idealisations, and their
exact scope: an out-of-range typed-array read yields undefined in JS (NaN
after arithmetic) and is modelled here by getD with default 0, so
element-value statements are faithful only on inputs where every read is in
range (shape facts such as lengths and the index buffer never depend on read
values); and numTriangles = triangle_indices.length / 3 uses integer
division, whereas JS divides as floats and its unroll loop runs ceil(len/3)
times, so the model is faithful exactly when the index count is a multiple
of three.  Theorems about malformed inputs are restricted accordingly.
The vertex_weights argument is accepted but, like in the source, never read
(the source computes min weights from the activated opacities only). -/
def createTriangleSplatsGeometry (vertices : List ℚ) (triangle_indices : List Nat)
    (opacities : List ℚ) (vertex_weights : Option (List ℚ)) (colors : Option (List Nat))
    (features_dc : Option (List ℚ)) (features_rest : Option (List ℚ))
    (sh_degree : Nat) : TriangleSplatsGeometryData :=
  let restComponentCount := if sh_degree > 0 then (sh_degree + 1) ^ 2 - 1 else 0
  let numTriangles := triangle_indices.length / 3
  let numOriginalVertices := vertices.length / 3
  let vtx := fun (k : Nat) => vertices.getD k 0
  let tIdx := fun (k : Nat) => triangle_indices.getD k 0
  let opac := fun (v : Nat) => opacities.getD v 0
  { unrolledVertices :=
      (List.range numTriangles).flatMap (fun i =>
        (List.range 3).flatMap (fun j =>
          let vIdx := tIdx (i * 3 + j)
          [vtx (vIdx * 3), vtx (vIdx * 3 + 1), vtx (vIdx * 3 + 2)]))
    triangleCenters :=
      (List.range numTriangles).flatMap (fun i =>
        [(vtx (tIdx (i * 3) * 3) + vtx (tIdx (i * 3 + 1) * 3) + vtx (tIdx (i * 3 + 2) * 3)) / 3,
         (vtx (tIdx (i * 3) * 3 + 1) + vtx (tIdx (i * 3 + 1) * 3 + 1) +
            vtx (tIdx (i * 3 + 2) * 3 + 1)) / 3,
         (vtx (tIdx (i * 3) * 3 + 2) + vtx (tIdx (i * 3 + 1) * 3 + 2) +
            vtx (tIdx (i * 3 + 2) * 3 + 2)) / 3])
    unrolledBarycentrics :=
      (List.range numTriangles).flatMap (fun _ => [1, 0, 0, 0, 1, 0, 0, 0, 1])
    unrolledOpacities :=
      (List.range numTriangles).flatMap (fun i =>
        (List.range 3).map (fun j => opac (tIdx (i * 3 + j))))
    triangleMinWeights :=
      (List.range numTriangles).flatMap (fun i =>
        let w := min (opac (tIdx (i * 3))) (min (opac (tIdx (i * 3 + 1))) (opac (tIdx (i * 3 + 2))))
        [w, w, w])
    vertexIndices :=
      (List.range numTriangles).flatMap (fun i =>
        (List.range 3).map (fun j => tIdx (i * 3 + j)))
    triangleVertexIndices0 :=
      (List.range numTriangles).flatMap (fun i =>
        [tIdx (i * 3), tIdx (i * 3), tIdx (i * 3)])
    triangleVertexIndices1 :=
      (List.range numTriangles).flatMap (fun i =>
        [tIdx (i * 3 + 1), tIdx (i * 3 + 1), tIdx (i * 3 + 1)])
    triangleVertexIndices2 :=
      (List.range numTriangles).flatMap (fun i =>
        [tIdx (i * 3 + 2), tIdx (i * 3 + 2), tIdx (i * 3 + 2)])
    triangleVertices0 :=
      (List.range numTriangles).flatMap (fun i =>
        (List.range 3).flatMap (fun _ =>
          [vtx (tIdx (i * 3) * 3), vtx (tIdx (i * 3) * 3 + 1), vtx (tIdx (i * 3) * 3 + 2)]))
    triangleVertices1 :=
      (List.range numTriangles).flatMap (fun i =>
        (List.range 3).flatMap (fun _ =>
          [vtx (tIdx (i * 3 + 1) * 3), vtx (tIdx (i * 3 + 1) * 3 + 1),
           vtx (tIdx (i * 3 + 1) * 3 + 2)]))
    triangleVertices2 :=
      (List.range numTriangles).flatMap (fun i =>
        (List.range 3).flatMap (fun _ =>
          [vtx (tIdx (i * 3 + 2) * 3), vtx (tIdx (i * 3 + 2) * 3 + 1),
           vtx (tIdx (i * 3 + 2) * 3 + 2)]))
    triangleOpacities0 :=
      (List.range numTriangles).flatMap (fun i =>
        [opac (tIdx (i * 3)), opac (tIdx (i * 3)), opac (tIdx (i * 3))])
    triangleOpacities1 :=
      (List.range numTriangles).flatMap (fun i =>
        [opac (tIdx (i * 3 + 1)), opac (tIdx (i * 3 + 1)), opac (tIdx (i * 3 + 1))])
    triangleOpacities2 :=
      (List.range numTriangles).flatMap (fun i =>
        [opac (tIdx (i * 3 + 2)), opac (tIdx (i * 3 + 2)), opac (tIdx (i * 3 + 2))])
    shData :=
      features_dc.map (fun fdc =>
        (List.range numOriginalVertices).flatMap (fun v =>
          [fdc.getD (v * 3) 0, fdc.getD (v * 3 + 1) 0, fdc.getD (v * 3 + 2) 0] ++
            (List.range 45).map (fun k =>
              match features_rest with
              | some fr =>
                  if k < restComponentCount * 3 then fr.getD (v * (restComponentCount * 3) + k) 0
                  else 0
              | none => 0)))
    unrolledColors :=
      colors.map (fun cs =>
        (List.range (numTriangles * 3)).flatMap (fun i =>
          let vIdx := tIdx i
          [(cs.getD (vIdx * 3) 0 : ℚ) / 255, (cs.getD (vIdx * 3 + 1) 0 : ℚ) / 255,
           (cs.getD (vIdx * 3 + 2) 0 : ℚ) / 255]))
    indices := List.range (numTriangles * 3) }

/-- Well-formed input shape, written after the words of the spec error-policy
section: the opacity count matches the vertex count, the index count is a
multiple of three, and a present SH rest buffer holds (d+1)^2 - 1 coefficient
triples per vertex. -/
def specWellFormedInput (vertices : List ℚ) (triangle_indices : List Nat)
    (opacities : List ℚ) (features_rest : Option (List ℚ)) (sh_degree : Nat) : Prop :=
  opacities.length * 3 = vertices.length ∧
  triangle_indices.length % 3 = 0 ∧
  (∀ fr ∈ features_rest,
    fr.length = (vertices.length / 3) * (((sh_degree + 1) ^ 2 - 1) * 3))

/-! ## Shader screen-space computations (createTriangleSplatsMaterial) -/

/-- Exact square root on rationals: correct (and used only) when numerator
and denominator of the reduced argument are perfect squares.  Serves to
instantiate the abstract sqrt parameter in concrete runs. -/
def ratSqrt (x : ℚ) : ℚ := (Nat.sqrt x.num.toNat : ℚ) / (Nat.sqrt x.den : ℚ)

/-- Pixel projection of the vertex shader:
projected = ((c.xy / c.w) + 1.0) * uResolution * 0.5 - 0.5, expressed on a
single ndc component. -/
def ndcToPixel {K : Type} [Field K] (ndc resolution : K) : K :=
  (ndc + 1) * resolution * (1 / 2) - 1 / 2

/-- Reference CUDA formula ndc2Pix(v, S) = ((v + 1) * S - 1) * 0.5 (it also
appears verbatim in the repository test suite). -/
def cudaNdc2Pix {K : Type} [Field K] (v S : K) : K := ((v + 1) * S - 1) * (1 / 2)

/-- Incenter computation of the vertex shader: side lengths by GLSL distance
(modelled as sqrtQ of the squared distance), incenter as the side-weighted
average of the projected vertices. -/
def incenterOf (sqrtQ : ℚ → ℚ) (p0 p1 p2 : ℚ × ℚ) : ℚ × ℚ :=
  let sideA := sqrtQ ((p1.1 - p2.1) ^ 2 + (p1.2 - p2.2) ^ 2)
  let sideB := sqrtQ ((p2.1 - p0.1) ^ 2 + (p2.2 - p0.2) ^ 2)
  let sideC := sqrtQ ((p0.1 - p1.1) ^ 2 + (p0.2 - p1.2) ^ 2)
  let perimeter := sideA + sideB + sideC
  ((sideA * p0.1 + sideB * p1.1 + sideC * p2.1) / perimeter,
   (sideA * p0.2 + sideB * p1.2 + sideC * p2.2) / perimeter)

/-- All the locals of one iteration of the edge loop of the vertex shader. -/
structure EdgeStepResult where
  normal : ℚ × ℚ
  offsetRaw : ℚ
  dist : ℚ
  shrinkSize : ℚ
  offsetWithShrink : ℚ
  deriving DecidableEq

/-- One iteration of the edge loop (edge from current to next):
outward normal (edge.y, -edge.x) normalised when its length exceeds 1e-4
(GLSL length is modelled as sqrtQ of the squared norm), offset, signed
incenter distance, orientation flip when dist > 0, and the shrink:
shrinkSize = computedSize, recomputed as dist * pow(quot, exponent) whenever
computedSize == 0.  The returned shrinkSize is the new computedSize. -/
def edgeStep (sqrtQ : ℚ → ℚ) (pw : ℚ → ℚ → ℚ) (quotSI exponent : ℚ)
    (incenter current next : ℚ × ℚ) (computedSize : ℚ) : EdgeStepResult :=
  let edge := (next.1 - current.1, next.2 - current.2)
  let normalA := (edge.2, -edge.1)
  let len := sqrtQ (normalA.1 ^ 2 + normalA.2 ^ 2)
  let normalB := if len > 1 / 10000 then (normalA.1 / len, normalA.2 / len) else normalA
  let offsetA := -(normalB.1 * current.1 + normalB.2 * current.2)
  let distA := normalB.1 * incenter.1 + normalB.2 * incenter.2 + offsetA
  let normalC := if distA > 0 then (-normalB.1, -normalB.2) else normalB
  let offsetB := if distA > 0 then -offsetA else offsetA
  let distB := if distA > 0 then -distA else distA
  let shrinkSize := if computedSize = 0 then distB * pw quotSI exponent else computedSize
  { normal := normalC, offsetRaw := offsetB, dist := distB, shrinkSize := shrinkSize,
    offsetWithShrink := offsetB - shrinkSize }

/-- Results of the three-iteration edge loop plus the phi scale. -/
structure EdgeLoopResult where
  normal0 : ℚ × ℚ
  normal1 : ℚ × ℚ
  normal2 : ℚ × ℚ
  rawOffset0 : ℚ
  rawOffset1 : ℚ
  rawOffset2 : ℚ
  offset0 : ℚ
  offset1 : ℚ
  offset2 : ℚ
  shrink0 : ℚ
  shrink1 : ℚ
  shrink2 : ℚ
  dist0 : ℚ
  dist1 : ℚ
  dist2 : ℚ
  lastDist : ℚ
  phiCenterScale : ℚ
  deriving DecidableEq

/-- The edge loop of the vertex shader on the three projected points,
with quot = stopping_influence / minWeight (stopping_influence = 0.01) and
exponent = 1 / sigma; computedSize starts at 0; lastDist is the dist of the
last iteration; safeDist replaces a nonnegative lastDist by -1e-4; the phi
scale is 1 / safeDist. -/
def edgeShrinkLoop (sqrtQ : ℚ → ℚ) (pw : ℚ → ℚ → ℚ) (p0 p1 p2 incenter : ℚ × ℚ)
    (minWeight sigma : ℚ) : EdgeLoopResult :=
  let stoppingInfluence : ℚ := 1 / 100
  let quotSI := stoppingInfluence / minWeight
  let exponent := 1 / sigma
  let e0 := edgeStep sqrtQ pw quotSI exponent incenter p0 p1 0
  let e1 := edgeStep sqrtQ pw quotSI exponent incenter p1 p2 e0.shrinkSize
  let e2 := edgeStep sqrtQ pw quotSI exponent incenter p2 p0 e1.shrinkSize
  let lastDist := e2.dist
  let safeDist := if lastDist ≥ 0 then -(1 / 10000 : ℚ) else lastDist
  { normal0 := e0.normal, normal1 := e1.normal, normal2 := e2.normal
    rawOffset0 := e0.offsetRaw, rawOffset1 := e1.offsetRaw, rawOffset2 := e2.offsetRaw
    offset0 := e0.offsetWithShrink, offset1 := e1.offsetWithShrink
    offset2 := e2.offsetWithShrink
    shrink0 := e0.shrinkSize, shrink1 := e1.shrinkSize, shrink2 := e2.shrinkSize
    dist0 := e0.dist, dist1 := e1.dist, dist2 := e2.dist
    lastDist := lastDist
    phiCenterScale := 1 / safeDist }

/-- Screen-space barycentric coordinates of the fragment shader; on a
degenerate denominator (absolute value below 1e-6) the weights are
(1/3, 1/3, 1/3).  Returned in order (weight of a, weight of b, weight of c). -/
def computeBarycentric (p a b c : ℚ × ℚ) : ℚ × ℚ × ℚ :=
  let v0 := (b.1 - a.1, b.2 - a.2)
  let v1 := (c.1 - a.1, c.2 - a.2)
  let v2 := (p.1 - a.1, p.2 - a.2)
  let denom := v0.1 * v1.2 - v1.1 * v0.2
  if |denom| < 1 / 1000000 then (1 / 3, 1 / 3, 1 / 3)
  else
    let invDen := 1 / denom
    let b0 := (v2.1 * v1.2 - v1.1 * v2.2) * invDen
    let b1 := (-v2.1 * v0.2 + v0.1 * v2.2) * invDen
    let b2 := 1 - b0 - b1
    (b2, b0, b1)

/-- The fragment shader main: signed edge distances, discard outside the
shrunken half-planes, soft alpha from the max distance and the phi scale,
discard below the 1/255 alpha threshold, barycentric colour interpolation,
pre-multiplied output.  none models discard; some gives (rgb, alpha). -/
def fragmentMain (pw : ℚ → ℚ → ℚ) (sigma : ℚ)
    (vNormal0 vNormal1 vNormal2 : ℚ × ℚ) (vOffset0 vOffset1 vOffset2 : ℚ)
    (vPhiCenterScale vTriangleMinWeight : ℚ)
    (vScreenPos0 vScreenPos1 vScreenPos2 : ℚ × ℚ)
    (vColor0 vColor1 vColor2 : ℚ × ℚ × ℚ) (pixf : ℚ × ℚ) :
    Option ((ℚ × ℚ × ℚ) × ℚ) :=
  let d0 := vNormal0.1 * pixf.1 + vNormal0.2 * pixf.2 + vOffset0
  let d1 := vNormal1.1 * pixf.1 + vNormal1.2 * pixf.2 + vOffset1
  let d2 := vNormal2.1 * pixf.1 + vNormal2.2 * pixf.2 + vOffset2
  if d0 > 0 ∨ d1 > 0 ∨ d2 > 0 then none
  else
    let maxVal := max d0 (max d1 d2)
    let phiFinal := maxVal * vPhiCenterScale
    let Cx := max 0 (pw (max phiFinal 0) sigma)
    let finalAlpha := min (99 / 100) (vTriangleMinWeight * Cx)
    if finalAlpha < 1 / 255 then none
    else
      let bary := computeBarycentric pixf vScreenPos0 vScreenPos1 vScreenPos2
      let interpColor :=
        (bary.1 * vColor0.1 + bary.2.1 * vColor1.1 + bary.2.2 * vColor2.1,
         bary.1 * vColor0.2.1 + bary.2.1 * vColor1.2.1 + bary.2.2 * vColor2.2.1,
         bary.1 * vColor0.2.2 + bary.2.1 * vColor1.2.2 + bary.2.2 * vColor2.2.2)
      some ((interpColor.1 * finalAlpha, interpColor.2.1 * finalAlpha,
             interpColor.2.2 * finalAlpha), finalAlpha)


/-! ## Correctness of the counting sort

The placement loop of the worker realises a stable ascending sort by bucket.
The proofs below characterise countsLoop (a histogram), offsetsLoop
(exclusive prefix sums) and placeLoop (stable placement), then assemble the
characterisation sortedIndicesList = stableSortByKey. -/

/-- Prefix sums of a bucket-size function: the first write position of
bucket v. -/
def startOf (counts : Nat → Nat) (v : Nat) : Nat := ((List.range v).map counts).sum

theorem startOf_succ (counts : Nat → Nat) (v : Nat) :
    startOf counts (v + 1) = startOf counts v + counts v := by
  simp [startOf, List.range_succ]

theorem startOf_mono (counts : Nat → Nat) {u v : Nat} (h : u ≤ v) :
    startOf counts u ≤ startOf counts v := by
  induction v with
  | zero => simpa [Nat.le_zero.mp h]
  | succ v ih =>
      rcases Nat.lt_or_ge u (v + 1) with hlt | hge
      · exact (ih (Nat.lt_succ_iff.mp hlt)).trans
          (by rw [startOf_succ]; exact Nat.le_add_right _ _)
      · have : u = v + 1 := Nat.le_antisymm h hge
        subst this; exact Nat.le_refl _

/-- A fold over the index range reading the list by getD equals the fold over
the list values. -/
theorem foldl_range_getD {α β : Type _} (g : β → α → β) (d : α) (l : List α) (init : β) :
    (List.range l.length).foldl (fun st i => g st (l.getD i d)) init = l.foldl g init := by
  induction l using List.reverseRecOn generalizing init with
  | nil => simp
  | append_singleton l a ih =>
      rw [List.length_append, List.length_singleton, List.range_succ,
        List.foldl_append, List.foldl_append]
      have hcongr :
          (List.range l.length).foldl (fun st i => g st ((l ++ [a]).getD i d)) init =
            (List.range l.length).foldl (fun st i => g st (l.getD i d)) init := by
        apply List.foldl_ext
        intro b i hi
        rw [List.getD_append _ _ _ _ (List.mem_range.mp hi)]
      rw [hcongr, ih]
      simp [List.getD_append_right]

/-- Value-fold form of the histogram loop. -/
theorem count_fold_apply (l : List Nat) (v : Nat) : ∀ (init : Nat → Nat),
    (l.foldl (fun f x => Function.update f x (f x + 1)) init) v = init v + l.count v := by
  induction l with
  | nil => intro init; simp
  | cons x xs ih =>
      intro init
      rw [List.foldl_cons, ih, List.count_cons]
      by_cases h : v = x
      · subst h; rw [Function.update_same]; simp; omega
      · rw [Function.update_noteq h]
        have hbx : ¬ (x == v) = true := by simp [Ne.symm h]
        simp [hbx]

/-- The histogram loop: countsLoop l v counts the occurrences of v in l. -/
theorem countsLoop_apply (l : List Nat) (v : Nat) : countsLoop l v = l.count v := by
  have hbridge := foldl_range_getD
    (fun counts x => Function.update counts x (counts x + 1)) 0 l (fun _ => 0)
  rw [countsLoop, hbridge, count_fold_apply]
  omega

/-- The prefix-sum loop over an arbitrary range bound. -/
theorem offsetsLoopAux (counts : Nat → Nat) (N : Nat) :
    ((List.range N).foldl (fun st i => (Function.update st.1 i st.2, st.2 + counts i))
        ((fun _ => 0), 0)).2 = startOf counts N ∧
      ∀ v < N, ((List.range N).foldl
          (fun st i => (Function.update st.1 i st.2, st.2 + counts i))
          ((fun _ => 0), 0)).1 v = startOf counts v := by
  induction N with
  | zero => exact ⟨by simp [startOf], by intro v hv; omega⟩
  | succ N ih =>
      rw [List.range_succ, List.foldl_append, List.foldl_cons, List.foldl_nil]
      refine ⟨?_, ?_⟩
      · rw [ih.1, startOf_succ]
      · intro v hv
        rcases Nat.lt_or_ge v N with hlt | hge
        · have hne : v ≠ N := Nat.ne_of_lt hlt
          show (Function.update _ N _) v = _
          rw [Function.update_noteq hne]
          exact ih.2 v hlt
        · have : v = N := by omega
          subst this
          show (Function.update _ v _) v = _
          rw [Function.update_same, ih.1]

/-- The offsets array holds exclusive prefix sums of the counts. -/
theorem offsetsLoop_apply (counts : Nat → Nat) {v : Nat} (hv : v < 65536) :
    (offsetsLoop counts).1 v = startOf counts v := by
  rw [offsetsLoop]
  exact (offsetsLoopAux counts 65536).2 v hv

/-- Positions below n holding bucket value v, in order (proof-side notion). -/
def prefixFilter (l : List Nat) (n v : Nat) : List Nat :=
  (List.range n).filter (fun i => l.getD i 0 = v)

theorem prefixFilter_succ (l : List Nat) (n v : Nat) :
    prefixFilter l (n + 1) v =
      prefixFilter l n v ++ (if l.getD n 0 = v then [n] else []) := by
  rw [prefixFilter, prefixFilter, List.range_succ, List.filter_append]
  by_cases h : l.getD n 0 = v
  · rw [if_pos h]
    simp only [List.filter_singleton]
    rw [decide_eq_true h]
    rfl
  · rw [if_neg h]
    simp only [List.filter_singleton]
    rw [decide_eq_false h]
    rfl

theorem prefixFilter_length_eq_count (l : List Nat) (v : Nat) :
    (prefixFilter l l.length v).length = l.count v := by
  induction l using List.reverseRecOn with
  | nil => simp [prefixFilter]
  | append_singleton l a ih =>
      have hcongr : prefixFilter (l ++ [a]) l.length v = prefixFilter l l.length v := by
        rw [prefixFilter, prefixFilter]
        apply List.filter_congr
        intro i hi
        rw [List.getD_append _ _ _ _ (List.mem_range.mp hi)]
      have hlen : (l ++ [a]).length = l.length + 1 := by simp
      rw [hlen, prefixFilter_succ, List.length_append, hcongr, ih,
        List.getD_append_right _ _ _ _ (Nat.le_refl _), List.count_append]
      by_cases h : a = v
      · simp [h]
      · have hbv : ¬ (a == v) = true := by simp [h]
        simp [List.count_cons, hbv, h]

theorem prefixFilter_length_mono (l : List Nat) (v : Nat) {n m : Nat} (h : n ≤ m) :
    (prefixFilter l n v).length ≤ (prefixFilter l m v).length := by
  obtain ⟨k, rfl⟩ : ∃ k, m = n + k := ⟨m - n, by omega⟩
  have hsplit : List.range (n + k) = List.range n ++ List.range' n k := by
    rw [List.range_eq_range', List.range_eq_range']
    have := List.range'_append 0 n k 1
    simp at this
    rw [Nat.add_comm n k]
    exact this.symm
  rw [prefixFilter, prefixFilter, hsplit, List.filter_append, List.length_append]
  exact Nat.le_add_right _ _

theorem prefixFilter_length_le_count (l : List Nat) (v : Nat) {n : Nat} (h : n ≤ l.length) :
    (prefixFilter l n v).length ≤ l.count v := by
  rw [← prefixFilter_length_eq_count l v]
  exact prefixFilter_length_mono l v h

/-- The placement loop stopped after the first n elements. -/
def placeAux (l : List Nat) (off0 : Nat → Nat) (n : Nat) : (Nat → Nat) × (Nat → Nat) :=
  (List.range n).foldl
    (fun st i =>
      let b := l.getD i 0
      (Function.update st.1 b (st.1 b + 1), Function.update st.2 (st.1 b) i))
    (off0, fun _ => 0)

theorem placeLoop_eq_placeAux (l : List Nat) (off0 : Nat → Nat) :
    placeLoop l off0 = placeAux l off0 l.length := rfl

theorem placeAux_succ (l : List Nat) (off0 : Nat → Nat) (n : Nat) :
    placeAux l off0 (n + 1) =
      ((Function.update (placeAux l off0 n).1 (l.getD n 0)
          ((placeAux l off0 n).1 (l.getD n 0) + 1)),
        Function.update (placeAux l off0 n).2
          ((placeAux l off0 n).1 (l.getD n 0)) n) := by
  rw [placeAux, placeAux, List.range_succ, List.foldl_append, List.foldl_cons, List.foldl_nil]

/-- Projection form of one placement step: the offsets array after n+1
elements. -/
theorem placeAux_succ_fst (l : List Nat) (off0 : Nat → Nat) (n : Nat) :
    (placeAux l off0 (n + 1)).1 =
      Function.update (placeAux l off0 n).1 (l.getD n 0)
        ((placeAux l off0 n).1 (l.getD n 0) + 1) := by
  rw [placeAux_succ]

/-- Projection form of one placement step: the output array after n+1
elements. -/
theorem placeAux_succ_snd (l : List Nat) (off0 : Nat → Nat) (n : Nat) :
    (placeAux l off0 (n + 1)).2 =
      Function.update (placeAux l off0 n).2
        ((placeAux l off0 n).1 (l.getD n 0)) n := by
  rw [placeAux_succ]

/-- Invariant of the placement loop: after n elements are placed, the offsets
array of bucket v has advanced by the number of already-placed elements of
bucket v, and the output array holds, at positions startOf v, startOf v + 1,
..., the already-placed elements of bucket v in their input order. -/
theorem placeAux_inv (l : List Nat) (off0 : Nat → Nat)
    (hb : ∀ x ∈ l, x < 65536)
    (hoff : ∀ v, v < 65536 → off0 v = startOf (fun u => l.count u) v) :
    ∀ n, n ≤ l.length →
      (∀ v, v < 65536 → (placeAux l off0 n).1 v =
          startOf (fun u => l.count u) v + (prefixFilter l n v).length) ∧
      (∀ v, v < 65536 → ∀ j, j < (prefixFilter l n v).length →
          (placeAux l off0 n).2 (startOf (fun u => l.count u) v + j) =
            (prefixFilter l n v).getD j 0) := by
  intro n
  induction n with
  | zero =>
      intro _
      have h0 : placeAux l off0 0 = (off0, fun _ => 0) := by
        rw [placeAux]; simp
      constructor
      · intro v hv
        rw [h0]
        show off0 v = _
        rw [hoff v hv]
        simp [prefixFilter]
      · intro v hv j hj
        rw [prefixFilter] at hj
        simp at hj
  | succ n ih =>
      intro hn1
      have hn : n ≤ l.length := Nat.le_of_succ_le hn1
      have hnlt : n < l.length := hn1
      obtain ⟨ihA, ihB⟩ := ih hn
      have hblt : l.getD n 0 < 65536 := by
        apply hb
        rw [List.getD_eq_getElem l 0 hnlt]
        exact List.getElem_mem hnlt
      have hpfb : prefixFilter l (n + 1) (l.getD n 0) =
          prefixFilter l n (l.getD n 0) ++ [n] := by
        rw [prefixFilter_succ, if_pos rfl]
      have hpfbLen : (prefixFilter l (n + 1) (l.getD n 0)).length =
          (prefixFilter l n (l.getD n 0)).length + 1 := by
        rw [hpfb, List.length_append, List.length_singleton]
      have hcntb : (prefixFilter l n (l.getD n 0)).length < l.count (l.getD n 0) := by
        have := prefixFilter_length_le_count l (l.getD n 0) hn1
        omega
      constructor
      · intro v hv
        rw [placeAux_succ_fst]
        by_cases hvb : v = l.getD n 0
        · subst hvb
          rw [Function.update_same, ihA _ hv, hpfbLen]
          omega
        · rw [Function.update_noteq hvb, ihA v hv]
          have hsame : prefixFilter l (n + 1) v = prefixFilter l n v := by
            rw [prefixFilter_succ, if_neg (fun h : l.getD n 0 = v => hvb h.symm)]
            simp
          rw [hsame]
      · intro v hv j hj
        rw [placeAux_succ_snd]
        have hpos : (placeAux l off0 n).1 (l.getD n 0) =
            startOf (fun u => l.count u) (l.getD n 0) +
              (prefixFilter l n (l.getD n 0)).length := ihA (l.getD n 0) hblt
        by_cases hvb : v = l.getD n 0
        · subst hvb
          rw [hpfbLen] at hj
          rcases Nat.lt_succ_iff_lt_or_eq.mp hj with hjlt | hjeq
          · rw [hpos, Function.update_noteq (by omega), ihB _ hv j hjlt, hpfb,
              List.getD_append _ _ _ _ hjlt]
          · subst hjeq
            rw [hpos, Function.update_same, hpfb,
              List.getD_append_right _ _ _ _ (Nat.le_refl _)]
            simp
        · have hsame : prefixFilter l (n + 1) v = prefixFilter l n v := by
            rw [prefixFilter_succ, if_neg (fun h : l.getD n 0 = v => hvb h.symm)]
            simp
          rw [hsame] at hj ⊢
          have hjcnt : j < l.count v :=
            Nat.lt_of_lt_of_le hj (prefixFilter_length_le_count l v hn)
          have hne : startOf (fun u => l.count u) v + j ≠
              startOf (fun u => l.count u) (l.getD n 0) +
                (prefixFilter l n (l.getD n 0)).length := by
            have hssv := startOf_succ (fun u => l.count u) v
            have hssb := startOf_succ (fun u => l.count u) (l.getD n 0)
            rcases Nat.lt_or_gt_of_ne hvb with hlt | hgt
            · have h2 : startOf (fun u => l.count u) (v + 1) ≤
                  startOf (fun u => l.count u) (l.getD n 0) :=
                startOf_mono _ (by omega)
              omega
            · have h2 : startOf (fun u => l.count u) (l.getD n 0 + 1) ≤
                  startOf (fun u => l.count u) v :=
                startOf_mono _ (by omega)
              omega
          rw [hpos, Function.update_noteq hne, ihB v hv j hj]

/-- Sum over all bucket values of an indicator of x. -/
theorem sum_indicator_range (N x : Nat) :
    ((List.range N).map (fun v => if x == v then 1 else 0)).sum =
      if x < N then 1 else 0 := by
  induction N with
  | zero => simp
  | succ N ih =>
      rw [List.range_succ, List.map_append, List.sum_append, ih]
      by_cases he : x = N
      · subst he
        simp [Nat.lt_irrefl, Nat.lt_succ_self]
      · by_cases h : x < N
        · simp [beq_iff_eq, he, h, Nat.lt_succ_of_lt h]
        · have hns : ¬ x < N + 1 := by omega
          simp [beq_iff_eq, he, h, hns]

/-- If every element of l is below N, the bucket counts sum to the length. -/
theorem startOf_count_total (l : List Nat) (N : Nat) (hb : ∀ x ∈ l, x < N) :
    startOf (fun u => l.count u) N = l.length := by
  induction l with
  | nil => simp [startOf]
  | cons x xs ih =>
      have hx : x < N := hb x (List.mem_cons_self _ _)
      have hxs : ∀ y ∈ xs, y < N := fun y hy => hb y (List.mem_cons_of_mem x hy)
      rw [startOf] at ih ⊢
      have hcnt : ∀ v, (x :: xs).count v = xs.count v + (if x == v then 1 else 0) := by
        intro v; rw [List.count_cons]
      have hmap : (List.range N).map (fun u => (x :: xs).count u) =
          (List.range N).map (fun u => xs.count u + (if x == u then 1 else 0)) := by
        apply List.map_congr_left
        intro u _
        exact hcnt u
      rw [hmap, List.sum_map_add, ih hxs, sum_indicator_range, if_pos hx]
      simp

/-- The per-bucket ranges of start positions tile the full index range. -/
theorem flatMap_range'_startOf (c : Nat → Nat) (N : Nat) :
    (List.range N).flatMap (fun v => List.range' (startOf c v) (c v)) =
      List.range (startOf c N) := by
  induction N with
  | zero => simp [startOf]
  | succ N ih =>
      rw [List.range_succ, List.flatMap_append, ih, startOf_succ]
      have hsingle : [N].flatMap (fun v => List.range' (startOf c v) (c v)) =
          List.range' (startOf c N) (c N) := by simp
      rw [hsingle, List.range_eq_range', List.range_eq_range']
      have happ := List.range'_append 0 (startOf c N) (c N) 1
      simp at happ
      rw [happ, Nat.add_comm (c N) (startOf c N)]

/-- The output segment of bucket v equals the positions of bucket v in input
order. -/
theorem segment_map_out (l : List Nat) (off0 : Nat → Nat)
    (hb : ∀ x ∈ l, x < 65536)
    (hoff : ∀ v, v < 65536 → off0 v = startOf (fun u => l.count u) v)
    (v : Nat) (hv : v < 65536) :
    (List.range' (startOf (fun u => l.count u) v) (l.count v)).map
        (placeLoop l off0).2 = prefixFilter l l.length v := by
  have hinv := (placeAux_inv l off0 hb hoff l.length (Nat.le_refl _)).2 v hv
  apply List.ext_getElem
  · rw [List.length_map, List.length_range', prefixFilter_length_eq_count]
  · intro i h1 h2
    rw [List.getElem_map, List.getElem_range']
    have hi : i < (prefixFilter l l.length v).length := h2
    have hicnt : i < l.count v := by
      rw [prefixFilter_length_eq_count] at hi; exact hi
    rw [placeLoop_eq_placeAux]
    have := hinv i hi
    rw [List.getD_eq_getElem _ _ hi] at this
    have harg : startOf (fun u => l.count u) v + 1 * i =
        startOf (fun u => l.count u) v + i := by omega
    rw [harg, this]

/-- flatMap of a constantly empty function is empty. -/
theorem flatMap_const_nil {A B : Type _} (L : List A) :
    L.flatMap (fun _ => ([] : List B)) = [] := by
  induction L with
  | nil => rfl
  | cons x xs ih => rw [List.flatMap_cons, ih]; rfl

/-- flatMap respects pointwise equality on the list. -/
theorem flatMap_congr_left {A B : Type _} (L : List A) (f g : A → List B)
    (h : ∀ a ∈ L, f a = g a) : L.flatMap f = L.flatMap g := by
  rw [List.flatMap_def, List.flatMap_def]
  congr 1
  exact List.map_congr_left h

/-- The counting sort writes exactly the bucket grouping of the input
positions: ascending by bucket, input order within a bucket. -/
theorem sortedIndicesList_eq_bucketGroups (l : List Nat)
    (hb : ∀ x ∈ l, x < 65536) :
    sortedIndicesList l =
      bucketGroups (fun i => l.getD i 0) (List.range l.length) 65536 := by
  have hoff : ∀ v, v < 65536 →
      (offsetsLoop (countsLoop l)).1 v = startOf (fun u => l.count u) v := by
    intro v hv
    rw [offsetsLoop_apply _ hv, startOf, startOf]
    congr 1
    apply List.map_congr_left
    intro u _
    exact countsLoop_apply l u
  have htotal := startOf_count_total l 65536 hb
  have hmain : (List.range (startOf (fun u => l.count u) 65536)).map
      (placeLoop l (offsetsLoop (countsLoop l)).1).2 =
      bucketGroups (fun i => l.getD i 0) (List.range l.length) 65536 := by
    rw [← flatMap_range'_startOf (fun u => l.count u) 65536, List.map_flatMap, bucketGroups]
    exact flatMap_congr_left _ _ _
      (fun v hv => segment_map_out l _ hb hoff v (List.mem_range.mp hv))
  rw [htotal] at hmain
  rw [sortedIndicesList]
  exact hmain

/-- Inserting behind strictly smaller keys and before not-smaller keys. -/
theorem stableInsert_append (key : Nat → Nat) (x : Nat) (A R : List Nat)
    (hA : ∀ a ∈ A, key a < key x) (hR : ∀ r ∈ R, ¬ key r < key x) :
    stableInsert key x (A ++ R) = A ++ x :: R := by
  induction A with
  | nil =>
      cases R with
      | nil => rfl
      | cons r R2 =>
          have := hR r (List.mem_cons_self _ _)
          simp [stableInsert, this]
  | cons a A2 ih =>
      have ha := hA a (List.mem_cons_self _ _)
      have hA2 : ∀ b ∈ A2, key b < key x := fun b hb2 => hA b (List.mem_cons_of_mem a hb2)
      simp only [List.cons_append, stableInsert, if_pos ha]
      exact congrArg (fun t => a :: t) (ih hA2)

/-- Bucket grouping coincides with stable insertion sort by key. -/
theorem bucketGroups_eq_stableSort (key : Nat → Nat) (l : List Nat) (M : Nat)
    (h : ∀ x ∈ l, key x < M) :
    bucketGroups key l M = stableSortByKey key l := by
  induction l with
  | nil =>
      rw [bucketGroups, stableSortByKey]
      have h1 : ((List.range M).flatMap fun b =>
          List.filter (fun i => key i = b) ([] : List Nat)) =
          (List.range M).flatMap (fun _ => ([] : List Nat)) :=
        flatMap_congr_left _ _ _ (fun b _ => rfl)
      rw [h1, flatMap_const_nil]
  | cons x xs ih =>
      have hx : key x < M := h x (List.mem_cons_self _ _)
      have hxs : ∀ y ∈ xs, key y < M := fun y hy => h y (List.mem_cons_of_mem x hy)
      have hsplit : List.range M =
          List.range (key x) ++ (key x :: List.range' (key x + 1) (M - key x - 1)) := by
        have h1 : List.range M = List.range' 0 (key x) ++ List.range' (key x) (M - key x) := by
          rw [List.range_eq_range']
          have := List.range'_append 0 (key x) (M - key x) 1
          simp at this
          rw [this]
          congr 1
          omega
        have h2 : List.range' (key x) (M - key x) =
            key x :: List.range' (key x + 1) (M - key x - 1) := by
          obtain ⟨k, hk⟩ : ∃ k, M - key x = k + 1 := ⟨M - key x - 1, by omega⟩
          rw [hk, List.range'_succ]
          congr 1
        rw [h1, h2, List.range_eq_range']
      have filterA : ∀ b, b ≠ key x →
          List.filter (fun i => key i = b) (x :: xs) =
            List.filter (fun i => key i = b) xs := by
        intro b hbne
        rw [List.filter_cons, if_neg]
        simp
        exact fun hc => hbne (hc ▸ rfl)
      have filterX : List.filter (fun i => key i = key x) (x :: xs) =
          x :: List.filter (fun i => key i = key x) xs := by
        rw [List.filter_cons, if_pos]
        simp
      have flatA : (List.range (key x)).flatMap
            (fun b => List.filter (fun i => key i = b) (x :: xs)) =
          (List.range (key x)).flatMap (fun b => List.filter (fun i => key i = b) xs) := by
        rw [List.flatMap_def, List.flatMap_def]
        congr 1
        apply List.map_congr_left
        intro b hbmem
        exact filterA b (by have := List.mem_range.mp hbmem; omega)
      have flatC : (List.range' (key x + 1) (M - key x - 1)).flatMap
            (fun b => List.filter (fun i => key i = b) (x :: xs)) =
          (List.range' (key x + 1) (M - key x - 1)).flatMap
            (fun b => List.filter (fun i => key i = b) xs) := by
        rw [List.flatMap_def, List.flatMap_def]
        congr 1
        apply List.map_congr_left
        intro b hbmem
        have := (List.mem_range'_1.mp hbmem).1
        exact filterA b (by omega)
      have hmemA : ∀ a ∈ (List.range (key x)).flatMap
          (fun b => List.filter (fun i => key i = b) xs), key a < key x := by
        intro a ha
        obtain ⟨b, hbmem, hafil⟩ := List.mem_flatMap.mp ha
        have hkey : key a = b := by
          have := (List.mem_filter.mp hafil).2
          simpa using this
        rw [hkey]
        exact List.mem_range.mp hbmem
      have hmemR : ∀ r ∈ (List.filter (fun i => key i = key x) xs ++
          (List.range' (key x + 1) (M - key x - 1)).flatMap
            (fun b => List.filter (fun i => key i = b) xs)), ¬ key r < key x := by
        intro r hr
        rcases List.mem_append.mp hr with hr1 | hr2
        · have := (List.mem_filter.mp hr1).2
          have hkey : key r = key x := by simpa using this
          omega
        · obtain ⟨b, hbmem, hrfil⟩ := List.mem_flatMap.mp hr2
          have hkey : key r = b := by
            have := (List.mem_filter.mp hrfil).2
            simpa using this
          have := (List.mem_range'_1.mp hbmem).1
          omega
      rw [bucketGroups, hsplit, List.flatMap_append, List.flatMap_cons, flatA, flatC,
        filterX]
      simp only [stableSortByKey]
      rw [← ih hxs, bucketGroups, hsplit, List.flatMap_append, List.flatMap_cons]
      rw [stableInsert_append key x _ _ hmemA hmemR]
      rw [List.cons_append]

/-- stableInsert produces a permutation of consing. -/
theorem stableInsert_perm (key : Nat → Nat) (x : Nat) (l : List Nat) :
    (stableInsert key x l).Perm (x :: l) := by
  induction l with
  | nil => exact List.Perm.refl _
  | cons y ys ih =>
      rw [stableInsert]
      by_cases h : key y < key x
      · rw [if_pos h]
        exact (List.Perm.cons y ih).trans (List.Perm.swap x y ys)
      · rw [if_neg h]

/-- Stable insertion sort permutes its input. -/
theorem stableSortByKey_perm (key : Nat → Nat) (l : List Nat) :
    (stableSortByKey key l).Perm l := by
  induction l with
  | nil => exact List.Perm.refl _
  | cons x xs ih =>
      rw [stableSortByKey]
      exact (stableInsert_perm key x _).trans (List.Perm.cons x ih)

/-- The counting sort of the worker equals the stable ascending sort by
bucket of the triangle indices. -/
theorem sortedIndicesList_eq_stableSort (l : List Nat)
    (hb : ∀ x ∈ l, x < 65536) :
    sortedIndicesList l =
      stableSortByKey (fun i => l.getD i 0) (List.range l.length) := by
  rw [sortedIndicesList_eq_bucketGroups l hb]
  apply bucketGroups_eq_stableSort
  intro x hx
  have hxlen := List.mem_range.mp hx
  rw [List.getD_eq_getElem l 0 hxlen]
  exact hb _ (List.getElem_mem hxlen)

/-- A running minimum is below every list element. -/
theorem foldl_min_le_mem (l : List ℚ) (a : ℚ) {x : ℚ} (hx : x ∈ l) :
    l.foldl min a ≤ x := by
  induction l generalizing a with
  | nil => cases hx
  | cons y ys ih =>
      rw [List.foldl_cons]
      rcases List.mem_cons.mp hx with h | h
      · subst h
        have hinit : ∀ (L : List ℚ) (b : ℚ), L.foldl min b ≤ b := by
          intro L
          induction L with
          | nil => intro b; exact le_refl b
          | cons z zs ihz =>
              intro b
              rw [List.foldl_cons]
              exact (ihz (min b z)).trans (min_le_left b z)
        exact (hinit ys (min a x)).trans (min_le_right a x)
      · exact ih (min a y) h

/-- A running maximum is above every list element. -/
theorem le_foldl_max_mem (l : List ℚ) (a : ℚ) {x : ℚ} (hx : x ∈ l) :
    x ≤ l.foldl max a := by
  induction l generalizing a with
  | nil => cases hx
  | cons y ys ih =>
      rw [List.foldl_cons]
      rcases List.mem_cons.mp hx with h | h
      · subst h
        have hinit : ∀ (L : List ℚ) (b : ℚ), b ≤ L.foldl max b := by
          intro L
          induction L with
          | nil => intro b; exact le_refl b
          | cons z zs ihz =>
              intro b
              rw [List.foldl_cons]
              exact (le_max_left b z).trans (ihz (max b z))
        exact (le_max_right a x).trans (hinit ys (max a x))
      · exact ih (max a y) h

/-- Under exact arithmetic every bucket value is at most 65535, and a depth
equal to the maximum depth lands exactly in bucket 65535. -/
theorem sorterBuckets_bounds (numTriangles : Nat) (centers viewMatrix : List ℚ)
    (hr : sorterMaxDepth numTriangles centers viewMatrix -
        sorterMinDepth numTriangles centers viewMatrix > 1 / 10000000) :
    (∀ b ∈ sorterBuckets numTriangles centers viewMatrix, b ≤ 65535) ∧
    (∀ i, i < numTriangles →
      (sorterDepths numTriangles centers viewMatrix).getD i 0 =
        sorterMaxDepth numTriangles centers viewMatrix →
      (sorterBuckets numTriangles centers viewMatrix).getD i 0 = 65535) := by
  set ds := sorterDepths numTriangles centers viewMatrix with hds
  set zmin := sorterMinDepth numTriangles centers viewMatrix with hzmin
  set zmax := sorterMaxDepth numTriangles centers viewMatrix with hzmax
  have hrange0 : (0 : ℚ) < zmax - zmin := lt_trans (by norm_num) hr
  have hrangene : zmax - zmin ≠ 0 := ne_of_gt hrange0
  have hkey : ∀ z : ℚ, zmin ≤ z → z ≤ zmax →
      (⌊(z - zmin) * (65535 / (zmax - zmin))⌋).toNat ≤ 65535 := by
    intro z h1 h2
    have hle : (z - zmin) * (65535 / (zmax - zmin)) ≤ 65535 := by
      have hstep : (z - zmin) * (65535 / (zmax - zmin)) ≤
          (zmax - zmin) * (65535 / (zmax - zmin)) := by
        apply mul_le_mul_of_nonneg_right (by linarith)
        positivity
      have heq : (zmax - zmin) * (65535 / (zmax - zmin)) = 65535 := by
        field_simp
      linarith
    have hfl : ⌊(z - zmin) * (65535 / (zmax - zmin))⌋ ≤ (65535 : ℤ) := by
      have := Int.floor_le_floor hle
      simpa using this
    omega
  constructor
  · intro b hbmem
    rw [sorterBuckets, ← hds, ← hzmin, ← hzmax] at hbmem
    obtain ⟨z, hzmem, hzb⟩ := List.mem_map.mp hbmem
    have h1 : zmin ≤ z := by
      rw [hzmin, sorterMinDepth, ← hds]
      exact foldl_min_le_mem ds (ds.headD 0) hzmem
    have h2 : z ≤ zmax := by
      rw [hzmax, sorterMaxDepth, ← hds]
      exact le_foldl_max_mem ds (ds.headD 0) hzmem
    rw [← hzb]
    exact hkey z h1 h2
  · intro i hi hmax
    have hlen : ds.length = numTriangles := by
      rw [hds, sorterDepths]
      simp
    have hilen : i < ds.length := by omega
    have hbt : (sorterBuckets numTriangles centers viewMatrix).getD i 0 =
        (⌊(ds.getD i 0 - zmin) * (65535 / (zmax - zmin))⌋).toNat := by
      rw [sorterBuckets, ← hds, ← hzmin, ← hzmax]
      have hmlen : i < (ds.map
          (fun z => (⌊(z - zmin) * (65535 / (zmax - zmin))⌋).toNat)).length := by
        rw [List.length_map]; omega
      rw [List.getD_eq_getElem _ _ hmlen, List.getElem_map,
        List.getD_eq_getElem _ _ hilen]
    rw [hbt, hmax]
    have heq : (zmax - zmin) * (65535 / (zmax - zmin)) = 65535 := by
      field_simp
    rw [heq]
    have hfl : ⌊(65535 : ℚ)⌋ = (65535 : ℤ) := by norm_num
    rw [hfl]
    rfl

/-- Bucket values are always strictly below the table size 65536 in the
sorting branch. -/
theorem sorterBuckets_lt (numTriangles : Nat) (centers viewMatrix : List ℚ)
    (hr : sorterMaxDepth numTriangles centers viewMatrix -
        sorterMinDepth numTriangles centers viewMatrix > 1 / 10000000) :
    ∀ b ∈ sorterBuckets numTriangles centers viewMatrix, b < 65536 := by
  intro b hb
  have := (sorterBuckets_bounds numTriangles centers viewMatrix hr).1 b hb
  omega

/-- stableInsert only looks at keys of the inserted element and the list. -/
theorem stableInsert_congr (k1 k2 : Nat → Nat) (x : Nat) (L : List Nat)
    (hx : k1 x = k2 x) (hL : ∀ y ∈ L, k1 y = k2 y) :
    stableInsert k1 x L = stableInsert k2 x L := by
  induction L with
  | nil => rfl
  | cons y ys ih =>
      have hy := hL y (List.mem_cons_self _ _)
      have hys : ∀ z ∈ ys, k1 z = k2 z := fun z hz => hL z (List.mem_cons_of_mem y hz)
      rw [stableInsert, stableInsert, hy, hx, ih hys]

/-- stableSortByKey only looks at keys of list elements. -/
theorem stableSortByKey_congr (k1 k2 : Nat → Nat) (l : List Nat)
    (h : ∀ x ∈ l, k1 x = k2 x) :
    stableSortByKey k1 l = stableSortByKey k2 l := by
  induction l with
  | nil => rfl
  | cons x xs ih =>
      have hx := h x (List.mem_cons_self _ _)
      have hxs : ∀ y ∈ xs, k1 y = k2 y := fun y hy => h y (List.mem_cons_of_mem x hy)
      rw [stableSortByKey, stableSortByKey, ih hxs]
      apply stableInsert_congr k1 k2 x _ hx
      intro y hy
      have hmem : y ∈ xs := ((stableSortByKey_perm k2 xs).mem_iff).mp hy
      exact h y (List.mem_cons_of_mem x hmem)

/-- The bucket of triangle i, for i in range. -/
theorem sorterBuckets_getD (numTriangles : Nat) (centers viewMatrix : List ℚ)
    (i : Nat) (hi : i < numTriangles) :
    (sorterBuckets numTriangles centers viewMatrix).getD i 0 =
      (⌊((sorterDepths numTriangles centers viewMatrix).getD i 0 -
            sorterMinDepth numTriangles centers viewMatrix) *
          (65535 / (sorterMaxDepth numTriangles centers viewMatrix -
            sorterMinDepth numTriangles centers viewMatrix))⌋).toNat := by
  simp only [sorterBuckets]
  have hdlen : (sorterDepths numTriangles centers viewMatrix).length = numTriangles := by
    rw [sorterDepths]; simp
  have hdi : i < (sorterDepths numTriangles centers viewMatrix).length := by omega
  have hmlen : i < ((sorterDepths numTriangles centers viewMatrix).map
      (fun z => (⌊(z - sorterMinDepth numTriangles centers viewMatrix) *
        (65535 / (sorterMaxDepth numTriangles centers viewMatrix -
          sorterMinDepth numTriangles centers viewMatrix))⌋).toNat)).length := by
    rw [List.length_map]; omega
  rw [List.getD_eq_getElem _ _ hmlen, List.getElem_map, List.getD_eq_getElem _ _ hdi]

/-- The worker sorter coincides with the specification sorter. -/
theorem sortAndPrepare_eq_sorterSpec (numTriangles : Nat) (centers viewMatrix : List ℚ) :
    sortAndPrepareIndexBuffer numTriangles centers viewMatrix =
      sorterSpec numTriangles centers viewMatrix := by
  have hspecMin : (sorterDepths numTriangles centers viewMatrix).foldl min
      ((sorterDepths numTriangles centers viewMatrix).headD 0) =
      sorterMinDepth numTriangles centers viewMatrix := rfl
  have hspecMax : (sorterDepths numTriangles centers viewMatrix).foldl max
      ((sorterDepths numTriangles centers viewMatrix).headD 0) =
      sorterMaxDepth numTriangles centers viewMatrix := rfl
  simp only [sortAndPrepareIndexBuffer, sorterSpec]
  rw [hspecMin, hspecMax]
  by_cases hcond : sorterMaxDepth numTriangles centers viewMatrix -
      sorterMinDepth numTriangles centers viewMatrix ≤ 1 / 10000000
  · rw [if_pos hcond, if_pos hcond]
  · rw [if_neg hcond, if_neg hcond]
    have hr : sorterMaxDepth numTriangles centers viewMatrix -
        sorterMinDepth numTriangles centers viewMatrix > 1 / 10000000 :=
      lt_of_not_le hcond
    have hb := sorterBuckets_lt numTriangles centers viewMatrix hr
    have hlen : (sorterBuckets numTriangles centers viewMatrix).length = numTriangles := by
      rw [sorterBuckets, sorterDepths]
      simp
    congr 1
    rw [sortedIndicesList_eq_stableSort _ hb, hlen]
    apply stableSortByKey_congr
    intro i hi
    have hiT : i < numTriangles := List.mem_range.mp hi
    rw [sorterBuckets_getD numTriangles centers viewMatrix i hiT, mul_div_assoc]

/-- A flatMap of corner triples has three entries per triangle. -/
theorem length_flatMap_triple (p : List Nat) :
    (p.flatMap (fun t => [t * 3, t * 3 + 1, t * 3 + 2])).length = 3 * p.length := by
  rw [List.length_flatMap]
  have hmap : List.map (List.length ∘ fun t => [t * 3, t * 3 + 1, t * 3 + 2]) p =
      List.map (Function.const Nat 3) p := by
    apply List.map_congr_left
    intro a _
    rfl
  rw [hmap, List.map_const, List.sum_replicate, smul_eq_mul]
  omega

/-- Element (3k + j) of a flatMap whose chunks have length three. -/
theorem flatMap_chunk3_getD {α β : Type _} (L : List α) (f : α → List β)
    (h3 : ∀ a, (f a).length = 3) (k j : Nat) (hk : k < L.length) (hj : j < 3) (d : β) :
    (L.flatMap f).getD (3 * k + j) d = (f (L[k])).getD j d := by
  induction L generalizing k with
  | nil => cases hk
  | cons x xs ih =>
      rw [List.flatMap_cons]
      cases k with
      | zero =>
          simp only [Nat.mul_zero, Nat.zero_add]
          rw [List.getD_append _ _ _ _ (by rw [h3]; omega)]
          rfl
      | succ k =>
          have hxk : k < xs.length := by
            have := hk
            simp at this
            omega
          have hge : (f x).length ≤ 3 * (k + 1) + j := by rw [h3]; omega
          rw [List.getD_append_right _ _ _ _ hge, h3]
          have harith : 3 * (k + 1) + j - 3 = 3 * k + j := by omega
          rw [harith, ih k hxk]
          rfl

/-- Concrete sort scenario of the specification: view matrix reading off the
z coordinate. -/
def exampleViewMatrix : List ℚ := [0, 0, 0, 0, 0, 0, 0, 0, 0, 0, 1, 0, 0, 0, 0, 0]

/-- Centers whose camera-space depths are -10, -5, -15, -1, -20. -/
def exampleCenters : List ℚ :=
  [0, 0, -10, 0, 0, -5, 0, 0, -15, 0, 0, -1, 0, 0, -20]

/-- Evaluation of the sorter on the concrete scenario. -/
theorem sorterSpec_example :
    sorterSpec 5 exampleCenters exampleViewMatrix =
      [12, 13, 14, 6, 7, 8, 0, 1, 2, 3, 4, 5, 9, 10, 11] := by
  have hdep : sorterDepths 5 exampleCenters exampleViewMatrix =
      [-10, -5, -15, -1, -20] := by
    norm_num [sorterDepths, exampleCenters, exampleViewMatrix, List.range_succ]
  simp only [sorterSpec]
  rw [hdep]
  have hmin : ([(-10 : ℚ), -5, -15, -1, -20].foldl min
      ([(-10 : ℚ), -5, -15, -1, -20].headD 0)) = -20 := by
    norm_num [min_def]
  have hmax : ([(-10 : ℚ), -5, -15, -1, -20].foldl max
      ([(-10 : ℚ), -5, -15, -1, -20].headD 0)) = -1 := by
    norm_num [max_def]
  rw [hmin, hmax, if_neg (by norm_num)]
  have hkeys : ∀ i ∈ List.range 5,
      (⌊(([(-10 : ℚ), -5, -15, -1, -20].getD i 0) - -20) * 65535 / (-1 - -20)⌋).toNat =
        [34492, 51738, 17246, 65535, 0].getD i 0 := by
    intro i hi
    have hi5 := List.mem_range.mp hi
    interval_cases i <;> simp [List.getD] <;> norm_num <;> decide
  rw [stableSortByKey_congr _ (fun i => [34492, 51738, 17246, 65535, 0].getD i 0) _ hkeys]
  decide

/-- C2: For every sort request the worker computes depths by
z_i = M[2]*c_x + M[6]*c_y + M[10]*c_z + M[14]; when the depth range is at
most 1e-7 it returns the identity index buffer, otherwise it stably
counting-sorts the triangles ascending by bucket
b_i = floor((z_i - min) * 65535 / (max - min)) (bucket 0 = farthest, emitted
first) and emits corner indices 3t, 3t+1, 3t+2 per sorted triangle; this is
the content of the equality with sorterSpec.  On depths
[-10, -5, -15, -1, -20] the emitted triangle order is [4, 2, 0, 1, 3], and
the sorter is a pure function, so repeating it on the same inputs yields the
identical output. -/
theorem C2_sorter_algorithm :
    (∀ (numTriangles : Nat) (centers viewMatrix : List ℚ),
      sortAndPrepareIndexBuffer numTriangles centers viewMatrix =
        sorterSpec numTriangles centers viewMatrix) ∧
    sorterDepths 5 exampleCenters exampleViewMatrix = [-10, -5, -15, -1, -20] ∧
    sortAndPrepareIndexBuffer 5 exampleCenters exampleViewMatrix =
      ([4, 2, 0, 1, 3].flatMap fun t => [t * 3, t * 3 + 1, t * 3 + 2]) ∧
    (∀ (numTriangles : Nat) (centers viewMatrix : List ℚ),
      sortAndPrepareIndexBuffer numTriangles centers viewMatrix =
        sortAndPrepareIndexBuffer numTriangles centers viewMatrix) := by
  refine ⟨sortAndPrepare_eq_sorterSpec, ?_, ?_, fun _ _ _ => rfl⟩
  · norm_num [sorterDepths, exampleCenters, exampleViewMatrix, List.range_succ]
  · rw [sortAndPrepare_eq_sorterSpec, sorterSpec_example]
    decide

/-- C3: every sorter output is 3*T corner indices forming exactly one
permutation of the triangle triples: some permutation p of the triangles
supplies, at positions 3k, 3k+1, 3k+2, the corner indices 3*p(k), 3*p(k)+1,
3*p(k)+2, and every triangle appears exactly once since p permutes
0, ..., T-1. -/
theorem C3_index_buffer_permutation :
    ∀ (numTriangles : Nat) (centers viewMatrix : List ℚ),
      (sortAndPrepareIndexBuffer numTriangles centers viewMatrix).length =
          3 * numTriangles ∧
      ∃ p : List Nat, p.Perm (List.range numTriangles) ∧
        sortAndPrepareIndexBuffer numTriangles centers viewMatrix =
          p.flatMap (fun t => [t * 3, t * 3 + 1, t * 3 + 2]) := by
  intro numTriangles centers viewMatrix
  simp only [sortAndPrepareIndexBuffer]
  by_cases hcond : sorterMaxDepth numTriangles centers viewMatrix -
      sorterMinDepth numTriangles centers viewMatrix ≤ 1 / 10000000
  · rw [if_pos hcond]
    refine ⟨?_, List.range numTriangles, List.Perm.refl _, rfl⟩
    rw [length_flatMap_triple, List.length_range]
  · rw [if_neg hcond]
    have hr : sorterMaxDepth numTriangles centers viewMatrix -
        sorterMinDepth numTriangles centers viewMatrix > 1 / 10000000 :=
      lt_of_not_le hcond
    have hbnd := sorterBuckets_lt numTriangles centers viewMatrix hr
    have hlen : (sorterBuckets numTriangles centers viewMatrix).length = numTriangles := by
      rw [sorterBuckets, sorterDepths]
      simp
    have hperm : (sortedIndicesList
        (sorterBuckets numTriangles centers viewMatrix)).Perm
        (List.range numTriangles) := by
      rw [sortedIndicesList_eq_stableSort _ hbnd, hlen]
      exact stableSortByKey_perm _ _
    refine ⟨?_, sortedIndicesList (sorterBuckets numTriangles centers viewMatrix),
      hperm, rfl⟩
    rw [length_flatMap_triple, hperm.length_eq, List.length_range]

/-- C10: under exact arithmetic, when the depth range exceeds 1e-7, every
bucket lies in [0, 65535] (so every counts/offsets access in the 65536-entry
tables is in bounds), the triangle at the maximum depth lands exactly in
bucket 65535, and no triangle is dropped: every triangle t has its corner
index 3t at some triple position of the output. -/
theorem C10_bucket_bounds (numTriangles : Nat) (centers viewMatrix : List ℚ)
    (hr : sorterMaxDepth numTriangles centers viewMatrix -
        sorterMinDepth numTriangles centers viewMatrix > 1 / 10000000) :
    (∀ b ∈ sorterBuckets numTriangles centers viewMatrix, b ≤ 65535) ∧
    (∀ i, i < numTriangles →
      (sorterDepths numTriangles centers viewMatrix).getD i 0 =
        sorterMaxDepth numTriangles centers viewMatrix →
      (sorterBuckets numTriangles centers viewMatrix).getD i 0 = 65535) ∧
    (∀ t, t < numTriangles → ∃ k, k < numTriangles ∧
      (sortAndPrepareIndexBuffer numTriangles centers viewMatrix).getD (3 * k) 0 =
        t * 3) := by
  obtain ⟨h1, h2⟩ := sorterBuckets_bounds numTriangles centers viewMatrix hr
  refine ⟨h1, h2, ?_⟩
  intro t ht
  simp only [sortAndPrepareIndexBuffer]
  rw [if_neg (not_le_of_lt hr)]
  have hbnd := sorterBuckets_lt numTriangles centers viewMatrix hr
  have hlen : (sorterBuckets numTriangles centers viewMatrix).length = numTriangles := by
    rw [sorterBuckets, sorterDepths]
    simp
  have hperm : (sortedIndicesList
      (sorterBuckets numTriangles centers viewMatrix)).Perm
      (List.range numTriangles) := by
    rw [sortedIndicesList_eq_stableSort _ hbnd, hlen]
    exact stableSortByKey_perm _ _
  have hmem : t ∈ sortedIndicesList (sorterBuckets numTriangles centers viewMatrix) := by
    rw [hperm.mem_iff, List.mem_range]
    exact ht
  obtain ⟨k, hk, hpk⟩ := List.getElem_of_mem hmem
  refine ⟨k, ?_, ?_⟩
  · have := hperm.length_eq
    rw [List.length_range] at this
    omega
  · have h30 : 3 * k + 0 = 3 * k := by omega
    rw [← h30, flatMap_chunk3_getD _ (fun t => [t * 3, t * 3 + 1, t * 3 + 2])
      (fun a => rfl) k 0 hk (by omega), hpk]
    rfl

/-- Witness for C10 at a concrete two-triangle request with depth range 1. -/
theorem C10_bucket_bounds_witness :
    (sorterMaxDepth 2 [0, 0, 0, 0, 0, 1] exampleViewMatrix -
        sorterMinDepth 2 [0, 0, 0, 0, 0, 1] exampleViewMatrix > 1 / 10000000) ∧
    ((∀ b ∈ sorterBuckets 2 [0, 0, 0, 0, 0, 1] exampleViewMatrix, b ≤ 65535) ∧
    (∀ i, i < 2 →
      (sorterDepths 2 [0, 0, 0, 0, 0, 1] exampleViewMatrix).getD i 0 =
        sorterMaxDepth 2 [0, 0, 0, 0, 0, 1] exampleViewMatrix →
      (sorterBuckets 2 [0, 0, 0, 0, 0, 1] exampleViewMatrix).getD i 0 = 65535) ∧
    (∀ t, t < 2 → ∃ k, k < 2 ∧
      (sortAndPrepareIndexBuffer 2 [0, 0, 0, 0, 0, 1] exampleViewMatrix).getD
        (3 * k) 0 = t * 3)) := by
  have hhyp : sorterMaxDepth 2 [0, 0, 0, 0, 0, 1] exampleViewMatrix -
      sorterMinDepth 2 [0, 0, 0, 0, 0, 1] exampleViewMatrix > 1 / 10000000 := by
    norm_num [sorterMaxDepth, sorterMinDepth, sorterDepths, exampleViewMatrix,
      List.range_succ, max_def, min_def]
  exact ⟨hhyp, C10_bucket_bounds 2 [0, 0, 0, 0, 0, 1] exampleViewMatrix hhyp⟩

/-- Length of a flatMap whose chunks all have the same length. -/
theorem length_flatMap_const {α β : Type _} (L : List α) (f : α → List β) (c : Nat)
    (h : ∀ a, (f a).length = c) : (L.flatMap f).length = L.length * c := by
  rw [List.length_flatMap]
  have hmap : List.map (List.length ∘ f) L = List.map (Function.const α c) L := by
    apply List.map_congr_left
    intro a _
    exact h a
  rw [hmap, List.map_const, List.sum_replicate, smul_eq_mul]

/-- C1: each of the three vertex records of triangle i stores the same
min-weight, and it is the minimum of the three activated opacities of the
corner vertices of triangle i (looked up through the triangle index list,
never through vertex_weights). -/
theorem C1_min_weight_records (vertices : List ℚ) (triangle_indices : List Nat)
    (opacities : List ℚ) (vertex_weights : Option (List ℚ)) (colors : Option (List Nat))
    (features_dc features_rest : Option (List ℚ)) (sh_degree : Nat)
    (i j : Nat) (hi : i < triangle_indices.length / 3) (hj : j < 3) :
    (createTriangleSplatsGeometry vertices triangle_indices opacities vertex_weights
        colors features_dc features_rest sh_degree).triangleMinWeights.getD
      (3 * i + j) 0 =
      min (opacities.getD (triangle_indices.getD (i * 3) 0) 0)
        (min (opacities.getD (triangle_indices.getD (i * 3 + 1) 0) 0)
          (opacities.getD (triangle_indices.getD (i * 3 + 2) 0) 0)) := by
  simp only [createTriangleSplatsGeometry]
  have hilen : i < (List.range (triangle_indices.length / 3)).length := by
    rw [List.length_range]; exact hi
  rw [flatMap_chunk3_getD _ _ (by intro a; rfl) i j hilen hj, List.getElem_range]
  interval_cases j <;> rfl

/-- Witness for C1 on a one-triangle scene. -/
theorem C1_min_weight_records_witness :
    ((0 : Nat) < ([0, 1, 2] : List Nat).length / 3 ∧ (0 : Nat) < 3) ∧
    (createTriangleSplatsGeometry [0, 0, 0, 1, 0, 0, 0, 1, 0] [0, 1, 2]
        [1/2, 1/3, 1/4] none none none none 0).triangleMinWeights.getD (3 * 0 + 0) 0 =
      min (([1/2, 1/3, 1/4] : List ℚ).getD (([0, 1, 2] : List Nat).getD (0 * 3) 0) 0)
        (min (([1/2, 1/3, 1/4] : List ℚ).getD (([0, 1, 2] : List Nat).getD (0 * 3 + 1) 0) 0)
          (([1/2, 1/3, 1/4] : List ℚ).getD (([0, 1, 2] : List Nat).getD (0 * 3 + 2) 0) 0)) :=
  ⟨⟨by decide, by decide⟩,
    C1_min_weight_records [0, 0, 0, 1, 0, 0, 0, 1, 0] [0, 1, 2] [1/2, 1/3, 1/4]
      none none none none 0 0 0 (by decide) (by decide)⟩

/-- C9: the builder never reads vertex_weights: any two invocations differing
only in that argument produce identical geometry (all attribute arrays, the
centroid table, the SH table, the colours and the index buffer). -/
theorem C9_vertex_weights_independence :
    ∀ (vertices : List ℚ) (triangle_indices : List Nat) (opacities : List ℚ)
      (vw1 vw2 : Option (List ℚ)) (colors : Option (List Nat))
      (features_dc features_rest : Option (List ℚ)) (sh_degree : Nat),
      createTriangleSplatsGeometry vertices triangle_indices opacities vw1 colors
        features_dc features_rest sh_degree =
      createTriangleSplatsGeometry vertices triangle_indices opacities vw2 colors
        features_dc features_rest sh_degree :=
  fun _ _ _ _ _ _ _ _ _ => rfl

/-- C7 counterexample: an input whose opacity count (4) mismatches the vertex
count (3) is malformed per the spec, yet the builder returns a fully-formed,
normally-built geometry: identity index buffer, unrolled positions and
opacities, and the min-weight of the three corner opacities.  Construction
does not fail.  On this input every typed-array read of the source is in
range and the index count is a multiple of three, so the rational embedding
coincides exactly with the JS run. -/
theorem C7_counterexample :
    ¬ specWellFormedInput [0, 0, 0, 1, 0, 0, 0, 1, 0] [0, 1, 2]
      [1/2, 1/3, 1/4, 1/5] none 0 ∧
    (createTriangleSplatsGeometry [0, 0, 0, 1, 0, 0, 0, 1, 0] [0, 1, 2]
        [1/2, 1/3, 1/4, 1/5] none none none none 0).indices = [0, 1, 2] ∧
    (createTriangleSplatsGeometry [0, 0, 0, 1, 0, 0, 0, 1, 0] [0, 1, 2]
        [1/2, 1/3, 1/4, 1/5] none none none none 0).unrolledOpacities =
      [1/2, 1/3, 1/4] ∧
    (createTriangleSplatsGeometry [0, 0, 0, 1, 0, 0, 0, 1, 0] [0, 1, 2]
        [1/2, 1/3, 1/4, 1/5] none none none none 0).triangleMinWeights.getD 0 0 =
      1/4 ∧
    (createTriangleSplatsGeometry [0, 0, 0, 1, 0, 0, 0, 1, 0] [0, 1, 2]
        [1/2, 1/3, 1/4, 1/5] none none none none 0).triangleMinWeights.length = 3 ∧
    (createTriangleSplatsGeometry [0, 0, 0, 1, 0, 0, 0, 1, 0] [0, 1, 2]
        [1/2, 1/3, 1/4, 1/5] none none none none 0).unrolledVertices =
      [0, 0, 0, 1, 0, 0, 0, 1, 0] := by
  refine ⟨fun h => absurd h.1 (by decide), rfl, rfl, ?_, rfl, rfl⟩
  have hproj : (createTriangleSplatsGeometry [0, 0, 0, 1, 0, 0, 0, 1, 0] [0, 1, 2]
      [1/2, 1/3, 1/4, 1/5] none none none none 0).triangleMinWeights.getD 0 0 =
      min ((1 : ℚ)/2) (min (1/3) (1/4)) := rfl
  rw [hproj]
  norm_num [min_def]

/-- C7 amended: createTriangleSplatsGeometry performs no input-shape
validation and has no failure path; whenever the index count is a multiple
of three (the regime where the JS float loop bound coincides with the
integer triangle count of the model), construction succeeds on every input,
well-formed or not, returning a fully-formed geometry: an identity index
buffer of (len/3)*3 entries and attribute arrays sized to the triangle
count.  In particular a mismatched opacity count never fails construction
(the counterexample exhibits the returned geometry). -/
theorem C7_no_validation :
    ∀ (vertices : List ℚ) (triangle_indices : List Nat) (opacities : List ℚ)
      (vertex_weights : Option (List ℚ)) (colors : Option (List Nat))
      (features_dc features_rest : Option (List ℚ)) (sh_degree : Nat),
      triangle_indices.length % 3 = 0 →
      (createTriangleSplatsGeometry vertices triangle_indices opacities vertex_weights
          colors features_dc features_rest sh_degree).indices =
        List.range ((triangle_indices.length / 3) * 3) ∧
      (createTriangleSplatsGeometry vertices triangle_indices opacities vertex_weights
          colors features_dc features_rest sh_degree).triangleMinWeights.length =
        (triangle_indices.length / 3) * 3 ∧
      (createTriangleSplatsGeometry vertices triangle_indices opacities vertex_weights
          colors features_dc features_rest sh_degree).unrolledOpacities.length =
        (triangle_indices.length / 3) * 3 ∧
      (createTriangleSplatsGeometry vertices triangle_indices opacities vertex_weights
          colors features_dc features_rest sh_degree).unrolledVertices.length =
        (triangle_indices.length / 3) * 9 := by
  intro vertices triangle_indices opacities vertex_weights colors fdc frest d _
  refine ⟨rfl, ?_, ?_, ?_⟩
  · simp only [createTriangleSplatsGeometry]
    rw [length_flatMap_const _ _ 3 (by intro a; rfl), List.length_range]
  · simp only [createTriangleSplatsGeometry]
    rw [length_flatMap_const _ _ 3 (by intro a; rfl), List.length_range]
  · simp only [createTriangleSplatsGeometry]
    rw [length_flatMap_const _ _ 9 (by intro a; rfl), List.length_range]

/-- Witness for C7 amended, at the malformed opacity-mismatch input of the
counterexample (its index count 3 is a multiple of three). -/
theorem C7_no_validation_witness :
    (([0, 1, 2] : List Nat).length % 3 = 0) ∧
    ((createTriangleSplatsGeometry [0, 0, 0, 1, 0, 0, 0, 1, 0] [0, 1, 2]
        [1/2, 1/3, 1/4, 1/5] none none none none 0).indices =
      List.range ((([0, 1, 2] : List Nat).length / 3) * 3) ∧
    (createTriangleSplatsGeometry [0, 0, 0, 1, 0, 0, 0, 1, 0] [0, 1, 2]
        [1/2, 1/3, 1/4, 1/5] none none none none 0).triangleMinWeights.length =
      (([0, 1, 2] : List Nat).length / 3) * 3 ∧
    (createTriangleSplatsGeometry [0, 0, 0, 1, 0, 0, 0, 1, 0] [0, 1, 2]
        [1/2, 1/3, 1/4, 1/5] none none none none 0).unrolledOpacities.length =
      (([0, 1, 2] : List Nat).length / 3) * 3 ∧
    (createTriangleSplatsGeometry [0, 0, 0, 1, 0, 0, 0, 1, 0] [0, 1, 2]
        [1/2, 1/3, 1/4, 1/5] none none none none 0).unrolledVertices.length =
      (([0, 1, 2] : List Nat).length / 3) * 9) :=
  ⟨by decide,
    C7_no_validation [0, 0, 0, 1, 0, 0, 0, 1, 0] [0, 1, 2] [1/2, 1/3, 1/4, 1/5]
      none none none none 0 (by decide)⟩

/-- C8: the implemented pixel projection (ndc + 1) * S * 0.5 - 0.5 equals the
reference ndc2Pix formula ((ndc + 1) * S - 1) * 0.5 as an algebraic identity
over the reals (and over the rationals of the model); for S = 1920, ndc
-1, 0, +1 map to pixels -0.5, 959.5, 1919.5. -/
theorem C8_pixel_projection :
    (∀ ndc S : ℝ, ndcToPixel ndc S = cudaNdc2Pix ndc S) ∧
    (∀ ndc S : ℚ, ndcToPixel ndc S = cudaNdc2Pix ndc S) ∧
    ndcToPixel (-1 : ℚ) 1920 = -(1/2) ∧
    ndcToPixel (0 : ℚ) 1920 = 1919/2 ∧
    ndcToPixel (1 : ℚ) 1920 = 3839/2 := by
  refine ⟨fun ndc S => ?_, fun ndc S => ?_, ?_, ?_, ?_⟩ <;>
    norm_num [ndcToPixel, cudaNdc2Pix] <;> ring

/-- The oriented incenter distance of an edge iteration is never positive. -/
theorem edgeStep_dist_nonpos (sqrtQ : ℚ → ℚ) (pw : ℚ → ℚ → ℚ) (quotSI exponent : ℚ)
    (incenter current next : ℚ × ℚ) (computedSize : ℚ) :
    (edgeStep sqrtQ pw quotSI exponent incenter current next computedSize).dist ≤ 0 := by
  simp only [edgeStep]
  split_ifs with h1 h2 <;> linarith

/-- C5 amended: after the edge loop, lastDist is never positive, and the phi
scale is 1 / lastDist whenever lastDist < 0; only at lastDist = 0 does the
code substitute the guard value -1e-4.  (The claimed formula
1 / min(lastDist, -1e-4) differs on -1e-4 < lastDist < 0.) -/
theorem C5_phi_scale_guard :
    ∀ (sqrtQ : ℚ → ℚ) (pw : ℚ → ℚ → ℚ) (p0 p1 p2 incenter : ℚ × ℚ)
      (minWeight sigma : ℚ),
      (edgeShrinkLoop sqrtQ pw p0 p1 p2 incenter minWeight sigma).lastDist ≤ 0 ∧
      (edgeShrinkLoop sqrtQ pw p0 p1 p2 incenter minWeight sigma).phiCenterScale =
        1 / (if (edgeShrinkLoop sqrtQ pw p0 p1 p2 incenter minWeight sigma).lastDist = 0
          then -(1 / 10000 : ℚ)
          else (edgeShrinkLoop sqrtQ pw p0 p1 p2 incenter minWeight sigma).lastDist) := by
  intro sqrtQ pw p0 p1 p2 I m s
  have hld : (edgeShrinkLoop sqrtQ pw p0 p1 p2 I m s).lastDist =
      (edgeStep sqrtQ pw ((1 / 100) / m) (1 / s) I p2 p0
        (edgeStep sqrtQ pw ((1 / 100) / m) (1 / s) I p1 p2
          (edgeStep sqrtQ pw ((1 / 100) / m) (1 / s) I p0 p1 0).shrinkSize).shrinkSize).dist :=
    rfl
  have hd0 : (edgeShrinkLoop sqrtQ pw p0 p1 p2 I m s).lastDist ≤ 0 := by
    rw [hld]
    exact edgeStep_dist_nonpos _ _ _ _ _ _ _ _
  refine ⟨hd0, ?_⟩
  have hps : (edgeShrinkLoop sqrtQ pw p0 p1 p2 I m s).phiCenterScale =
      1 / (if (edgeShrinkLoop sqrtQ pw p0 p1 p2 I m s).lastDist ≥ 0
        then -(1 / 10000 : ℚ)
        else (edgeShrinkLoop sqrtQ pw p0 p1 p2 I m s).lastDist) := rfl
  rw [hps]
  by_cases hz : (edgeShrinkLoop sqrtQ pw p0 p1 p2 I m s).lastDist = 0
  · rw [if_pos (by rw [hz]), if_pos hz]
  · have hlt : (edgeShrinkLoop sqrtQ pw p0 p1 p2 I m s).lastDist < 0 :=
      lt_of_le_of_ne hd0 hz
    rw [if_neg (by exact not_le.mpr hlt), if_neg hz]

/-- Base length of the sliver triangle used to refute the phi-scale formula:
about 100 pixels. -/
def sliverQ : ℚ := (10 ^ 12 - 1) / 10 ^ 10

/-- Slant length of the sliver triangle: about 50 pixels. -/
def sliverL : ℚ := (10 ^ 12 + 1) / (2 * 10 ^ 10)

/-- Exact square root on the two squared lengths arising in the sliver run
(both are perfect rational squares). -/
def sliverSqrt (x : ℚ) : ℚ :=
  if x = sliverQ ^ 2 then sliverQ else if x = sliverL ^ 2 then sliverL else 0

/-- C5 counterexample: a thin but long triangle (base about 100 pixels,
height 1e-4) whose incenter distance to the last edge lies strictly between
-1e-4 and 0.  The code leaves lastDist untouched (the guard fires only at
lastDist = 0), so the phi scale is 1/lastDist and differs from the claimed
1/min(lastDist, -1e-4) = -10000.  All square roots taken in this run are
exact: the conjuncts certify sliverSqrt on the two squared lengths used. -/
theorem C5_phi_scale_counterexample :
    (sliverSqrt (sliverQ ^ 2) ≥ 0 ∧ sliverSqrt (sliverQ ^ 2) ^ 2 = sliverQ ^ 2) ∧
    (sliverSqrt (sliverL ^ 2) ≥ 0 ∧ sliverSqrt (sliverL ^ 2) ^ 2 = sliverL ^ 2) ∧
    (-(1/10000) <
        (edgeShrinkLoop sliverSqrt (fun x _ => x) (0, 0) (sliverQ, 0)
          (sliverQ / 2, 1 / 10 ^ 4)
          (incenterOf sliverSqrt (0, 0) (sliverQ, 0) (sliverQ / 2, 1 / 10 ^ 4))
          (1/2) 1).lastDist ∧
      (edgeShrinkLoop sliverSqrt (fun x _ => x) (0, 0) (sliverQ, 0)
          (sliverQ / 2, 1 / 10 ^ 4)
          (incenterOf sliverSqrt (0, 0) (sliverQ, 0) (sliverQ / 2, 1 / 10 ^ 4))
          (1/2) 1).lastDist < 0) ∧
    (edgeShrinkLoop sliverSqrt (fun x _ => x) (0, 0) (sliverQ, 0)
        (sliverQ / 2, 1 / 10 ^ 4)
        (incenterOf sliverSqrt (0, 0) (sliverQ, 0) (sliverQ / 2, 1 / 10 ^ 4))
        (1/2) 1).phiCenterScale ≠
      1 / min (edgeShrinkLoop sliverSqrt (fun x _ => x) (0, 0) (sliverQ, 0)
          (sliverQ / 2, 1 / 10 ^ 4)
          (incenterOf sliverSqrt (0, 0) (sliverQ, 0) (sliverQ / 2, 1 / 10 ^ 4))
          (1/2) 1).lastDist (-(1/10000)) := by
  refine ⟨?_, ?_, ?_, ?_⟩ <;>
    norm_num [incenterOf, edgeShrinkLoop, edgeStep, sliverSqrt, sliverQ, sliverL, min_def]

/-- C6: whenever the first shrink product is nonzero, or all three vanish
together (which exhaustively covers real geometry, where dist0 = 0 forces a
degenerate triangle with dist1 = dist2 = 0), the loop subtracts the single
amount s = dist0 * pow(0.01/minWeight, 1/sigma) from all three edge offsets. -/
theorem C6_uniform_shrink :
    ∀ (sqrtQ : ℚ → ℚ) (pw : ℚ → ℚ → ℚ) (p0 p1 p2 incenter : ℚ × ℚ)
      (minWeight sigma : ℚ),
      ((edgeShrinkLoop sqrtQ pw p0 p1 p2 incenter minWeight sigma).dist0 *
          pw ((1 / 100) / minWeight) (1 / sigma) = 0 →
        (edgeShrinkLoop sqrtQ pw p0 p1 p2 incenter minWeight sigma).dist1 *
            pw ((1 / 100) / minWeight) (1 / sigma) = 0 ∧
          (edgeShrinkLoop sqrtQ pw p0 p1 p2 incenter minWeight sigma).dist2 *
            pw ((1 / 100) / minWeight) (1 / sigma) = 0) →
      ((edgeShrinkLoop sqrtQ pw p0 p1 p2 incenter minWeight sigma).shrink0 =
          (edgeShrinkLoop sqrtQ pw p0 p1 p2 incenter minWeight sigma).dist0 *
            pw ((1 / 100) / minWeight) (1 / sigma) ∧
        (edgeShrinkLoop sqrtQ pw p0 p1 p2 incenter minWeight sigma).shrink1 =
          (edgeShrinkLoop sqrtQ pw p0 p1 p2 incenter minWeight sigma).dist0 *
            pw ((1 / 100) / minWeight) (1 / sigma) ∧
        (edgeShrinkLoop sqrtQ pw p0 p1 p2 incenter minWeight sigma).shrink2 =
          (edgeShrinkLoop sqrtQ pw p0 p1 p2 incenter minWeight sigma).dist0 *
            pw ((1 / 100) / minWeight) (1 / sigma)) ∧
      ((edgeShrinkLoop sqrtQ pw p0 p1 p2 incenter minWeight sigma).offset0 =
          (edgeShrinkLoop sqrtQ pw p0 p1 p2 incenter minWeight sigma).rawOffset0 -
            (edgeShrinkLoop sqrtQ pw p0 p1 p2 incenter minWeight sigma).shrink0 ∧
        (edgeShrinkLoop sqrtQ pw p0 p1 p2 incenter minWeight sigma).offset1 =
          (edgeShrinkLoop sqrtQ pw p0 p1 p2 incenter minWeight sigma).rawOffset1 -
            (edgeShrinkLoop sqrtQ pw p0 p1 p2 incenter minWeight sigma).shrink1 ∧
        (edgeShrinkLoop sqrtQ pw p0 p1 p2 incenter minWeight sigma).offset2 =
          (edgeShrinkLoop sqrtQ pw p0 p1 p2 incenter minWeight sigma).rawOffset2 -
            (edgeShrinkLoop sqrtQ pw p0 p1 p2 incenter minWeight sigma).shrink2) := by
  intro sqrtQ pw p0 p1 p2 I m s H
  have hs0eq : (edgeShrinkLoop sqrtQ pw p0 p1 p2 I m s).shrink0 =
      if (0 : ℚ) = 0 then
        (edgeShrinkLoop sqrtQ pw p0 p1 p2 I m s).dist0 * pw ((1 / 100) / m) (1 / s)
      else (0 : ℚ) := rfl
  have hs0 : (edgeShrinkLoop sqrtQ pw p0 p1 p2 I m s).shrink0 =
      (edgeShrinkLoop sqrtQ pw p0 p1 p2 I m s).dist0 *
        pw ((1 / 100) / m) (1 / s) := by
    rw [hs0eq, if_pos rfl]
  have hs1 : (edgeShrinkLoop sqrtQ pw p0 p1 p2 I m s).shrink1 =
      if (edgeShrinkLoop sqrtQ pw p0 p1 p2 I m s).shrink0 = 0 then
        (edgeShrinkLoop sqrtQ pw p0 p1 p2 I m s).dist1 * pw ((1 / 100) / m) (1 / s)
      else (edgeShrinkLoop sqrtQ pw p0 p1 p2 I m s).shrink0 := rfl
  have hs2 : (edgeShrinkLoop sqrtQ pw p0 p1 p2 I m s).shrink2 =
      if (edgeShrinkLoop sqrtQ pw p0 p1 p2 I m s).shrink1 = 0 then
        (edgeShrinkLoop sqrtQ pw p0 p1 p2 I m s).dist2 * pw ((1 / 100) / m) (1 / s)
      else (edgeShrinkLoop sqrtQ pw p0 p1 p2 I m s).shrink1 := rfl
  have hoff : (edgeShrinkLoop sqrtQ pw p0 p1 p2 I m s).offset0 =
        (edgeShrinkLoop sqrtQ pw p0 p1 p2 I m s).rawOffset0 -
          (edgeShrinkLoop sqrtQ pw p0 p1 p2 I m s).shrink0 ∧
      (edgeShrinkLoop sqrtQ pw p0 p1 p2 I m s).offset1 =
        (edgeShrinkLoop sqrtQ pw p0 p1 p2 I m s).rawOffset1 -
          (edgeShrinkLoop sqrtQ pw p0 p1 p2 I m s).shrink1 ∧
      (edgeShrinkLoop sqrtQ pw p0 p1 p2 I m s).offset2 =
        (edgeShrinkLoop sqrtQ pw p0 p1 p2 I m s).rawOffset2 -
          (edgeShrinkLoop sqrtQ pw p0 p1 p2 I m s).shrink2 := ⟨rfl, rfl, rfl⟩
  refine ⟨?_, hoff⟩
  by_cases hz : (edgeShrinkLoop sqrtQ pw p0 p1 p2 I m s).dist0 *
      pw ((1 / 100) / m) (1 / s) = 0
  · obtain ⟨h1, h2⟩ := H hz
    have hz0 : (edgeShrinkLoop sqrtQ pw p0 p1 p2 I m s).shrink0 = 0 := by
      rw [hs0, hz]
    have hz1 : (edgeShrinkLoop sqrtQ pw p0 p1 p2 I m s).shrink1 = 0 := by
      rw [hs1, if_pos hz0, h1]
    refine ⟨hs0, ?_, ?_⟩
    · rw [hz1, hz]
    · rw [hs2, if_pos hz1, h2, hz]
  · have hnz0 : ¬ (edgeShrinkLoop sqrtQ pw p0 p1 p2 I m s).shrink0 = 0 := by
      rw [hs0]; exact hz
    have he1 : (edgeShrinkLoop sqrtQ pw p0 p1 p2 I m s).shrink1 =
        (edgeShrinkLoop sqrtQ pw p0 p1 p2 I m s).shrink0 := by
      rw [hs1, if_neg hnz0]
    have hnz1 : ¬ (edgeShrinkLoop sqrtQ pw p0 p1 p2 I m s).shrink1 = 0 := by
      rw [he1]; exact hnz0
    refine ⟨hs0, ?_, ?_⟩
    · rw [he1, hs0]
    · rw [hs2, if_neg hnz1, he1, hs0]

/-- Witness for C6 on a 3-4-5 right triangle with unit-valued abstract
primitives; the first shrink product is -4, so the side condition holds
vacuously. -/
theorem C6_uniform_shrink_witness :
    (((edgeShrinkLoop (fun _ => 1) (fun _ _ => 1) (0, 0) (4, 0) (0, 3) (1, 1)
          (1/2) 1).dist0 * 1 = 0 →
      (edgeShrinkLoop (fun _ => 1) (fun _ _ => 1) (0, 0) (4, 0) (0, 3) (1, 1)
          (1/2) 1).dist1 * 1 = 0 ∧
      (edgeShrinkLoop (fun _ => 1) (fun _ _ => 1) (0, 0) (4, 0) (0, 3) (1, 1)
          (1/2) 1).dist2 * 1 = 0)) ∧
    (((edgeShrinkLoop (fun _ => 1) (fun _ _ => 1) (0, 0) (4, 0) (0, 3) (1, 1)
          (1/2) 1).shrink0 =
        (edgeShrinkLoop (fun _ => 1) (fun _ _ => 1) (0, 0) (4, 0) (0, 3) (1, 1)
          (1/2) 1).dist0 * 1 ∧
      (edgeShrinkLoop (fun _ => 1) (fun _ _ => 1) (0, 0) (4, 0) (0, 3) (1, 1)
          (1/2) 1).shrink1 =
        (edgeShrinkLoop (fun _ => 1) (fun _ _ => 1) (0, 0) (4, 0) (0, 3) (1, 1)
          (1/2) 1).dist0 * 1 ∧
      (edgeShrinkLoop (fun _ => 1) (fun _ _ => 1) (0, 0) (4, 0) (0, 3) (1, 1)
          (1/2) 1).shrink2 =
        (edgeShrinkLoop (fun _ => 1) (fun _ _ => 1) (0, 0) (4, 0) (0, 3) (1, 1)
          (1/2) 1).dist0 * 1) ∧
    ((edgeShrinkLoop (fun _ => 1) (fun _ _ => 1) (0, 0) (4, 0) (0, 3) (1, 1)
          (1/2) 1).offset0 =
        (edgeShrinkLoop (fun _ => 1) (fun _ _ => 1) (0, 0) (4, 0) (0, 3) (1, 1)
          (1/2) 1).rawOffset0 -
          (edgeShrinkLoop (fun _ => 1) (fun _ _ => 1) (0, 0) (4, 0) (0, 3) (1, 1)
            (1/2) 1).shrink0 ∧
      (edgeShrinkLoop (fun _ => 1) (fun _ _ => 1) (0, 0) (4, 0) (0, 3) (1, 1)
          (1/2) 1).offset1 =
        (edgeShrinkLoop (fun _ => 1) (fun _ _ => 1) (0, 0) (4, 0) (0, 3) (1, 1)
          (1/2) 1).rawOffset1 -
          (edgeShrinkLoop (fun _ => 1) (fun _ _ => 1) (0, 0) (4, 0) (0, 3) (1, 1)
            (1/2) 1).shrink1 ∧
      (edgeShrinkLoop (fun _ => 1) (fun _ _ => 1) (0, 0) (4, 0) (0, 3) (1, 1)
          (1/2) 1).offset2 =
        (edgeShrinkLoop (fun _ => 1) (fun _ _ => 1) (0, 0) (4, 0) (0, 3) (1, 1)
          (1/2) 1).rawOffset2 -
          (edgeShrinkLoop (fun _ => 1) (fun _ _ => 1) (0, 0) (4, 0) (0, 3) (1, 1)
            (1/2) 1).shrink2)) := by
  have hH : (edgeShrinkLoop (fun _ => 1) (fun _ _ => 1) (0, 0) (4, 0) (0, 3) (1, 1)
      (1/2) 1).dist0 * 1 = 0 →
      (edgeShrinkLoop (fun _ => 1) (fun _ _ => 1) (0, 0) (4, 0) (0, 3) (1, 1)
          (1/2) 1).dist1 * 1 = 0 ∧
      (edgeShrinkLoop (fun _ => 1) (fun _ _ => 1) (0, 0) (4, 0) (0, 3) (1, 1)
          (1/2) 1).dist2 * 1 = 0 := by
    intro h
    exact absurd h (by norm_num [edgeShrinkLoop, edgeStep])
  exact ⟨hH, C6_uniform_shrink (fun _ => 1) (fun _ _ => 1) (0, 0) (4, 0) (0, 3) (1, 1)
    (1/2) 1 hH⟩

/-- C4: for a fragment inside all three shrunken half-planes and a pow
primitive that is nonnegative on nonnegative bases, the fragment stage
computes Cx = pow(max(0, M * phiScale), sigma) with M the largest signed
edge distance, the alpha min(0.99, minWeight * Cx), discards exactly when
alpha < 1/255, and otherwise outputs the pre-multiplied colour
(C * alpha, alpha) with C the screen-space barycentric interpolation of the
three vertex colours; a degenerate barycentric denominator (|den| < 1e-6)
yields weights (1/3, 1/3, 1/3). -/
theorem C4_fragment_stage (pw : ℚ → ℚ → ℚ) (sigma : ℚ)
    (vNormal0 vNormal1 vNormal2 : ℚ × ℚ) (vOffset0 vOffset1 vOffset2 : ℚ)
    (vPhiCenterScale vTriangleMinWeight : ℚ)
    (vScreenPos0 vScreenPos1 vScreenPos2 : ℚ × ℚ)
    (vColor0 vColor1 vColor2 : ℚ × ℚ × ℚ) (pixf : ℚ × ℚ)
    (hpow : ∀ x y : ℚ, 0 ≤ x → 0 ≤ pw x y)
    (hd0 : vNormal0.1 * pixf.1 + vNormal0.2 * pixf.2 + vOffset0 ≤ 0)
    (hd1 : vNormal1.1 * pixf.1 + vNormal1.2 * pixf.2 + vOffset1 ≤ 0)
    (hd2 : vNormal2.1 * pixf.1 + vNormal2.2 * pixf.2 + vOffset2 ≤ 0) :
    ∃ Cx finalAlpha : ℚ,
      Cx = pw (max 0
          (max (vNormal0.1 * pixf.1 + vNormal0.2 * pixf.2 + vOffset0)
            (max (vNormal1.1 * pixf.1 + vNormal1.2 * pixf.2 + vOffset1)
              (vNormal2.1 * pixf.1 + vNormal2.2 * pixf.2 + vOffset2)) *
            vPhiCenterScale)) sigma ∧
      finalAlpha = min (99 / 100) (vTriangleMinWeight * Cx) ∧
      (fragmentMain pw sigma vNormal0 vNormal1 vNormal2 vOffset0 vOffset1 vOffset2
          vPhiCenterScale vTriangleMinWeight vScreenPos0 vScreenPos1 vScreenPos2
          vColor0 vColor1 vColor2 pixf = none ↔ finalAlpha < 1 / 255) ∧
      ((1 / 255 : ℚ) ≤ finalAlpha →
        fragmentMain pw sigma vNormal0 vNormal1 vNormal2 vOffset0 vOffset1 vOffset2
            vPhiCenterScale vTriangleMinWeight vScreenPos0 vScreenPos1 vScreenPos2
            vColor0 vColor1 vColor2 pixf =
          some
            ((((computeBarycentric pixf vScreenPos0 vScreenPos1 vScreenPos2).1 *
                  vColor0.1 +
                (computeBarycentric pixf vScreenPos0 vScreenPos1 vScreenPos2).2.1 *
                  vColor1.1 +
                (computeBarycentric pixf vScreenPos0 vScreenPos1 vScreenPos2).2.2 *
                  vColor2.1) * finalAlpha,
              ((computeBarycentric pixf vScreenPos0 vScreenPos1 vScreenPos2).1 *
                  vColor0.2.1 +
                (computeBarycentric pixf vScreenPos0 vScreenPos1 vScreenPos2).2.1 *
                  vColor1.2.1 +
                (computeBarycentric pixf vScreenPos0 vScreenPos1 vScreenPos2).2.2 *
                  vColor2.2.1) * finalAlpha,
              ((computeBarycentric pixf vScreenPos0 vScreenPos1 vScreenPos2).1 *
                  vColor0.2.2 +
                (computeBarycentric pixf vScreenPos0 vScreenPos1 vScreenPos2).2.1 *
                  vColor1.2.2 +
                (computeBarycentric pixf vScreenPos0 vScreenPos1 vScreenPos2).2.2 *
                  vColor2.2.2) * finalAlpha), finalAlpha)) ∧
      (∀ p a b c : ℚ × ℚ,
        |(b.1 - a.1) * (c.2 - a.2) - (c.1 - a.1) * (b.2 - a.2)| < 1 / 1000000 →
        computeBarycentric p a b c = (1 / 3, 1 / 3, 1 / 3)) := by
  have hnotdisc : ¬ (vNormal0.1 * pixf.1 + vNormal0.2 * pixf.2 + vOffset0 > 0 ∨
      vNormal1.1 * pixf.1 + vNormal1.2 * pixf.2 + vOffset1 > 0 ∨
      vNormal2.1 * pixf.1 + vNormal2.2 * pixf.2 + vOffset2 > 0) := by
    push_neg
    exact ⟨hd0, hd1, hd2⟩
  have hCx : max 0 (pw (max
      (max (vNormal0.1 * pixf.1 + vNormal0.2 * pixf.2 + vOffset0)
        (max (vNormal1.1 * pixf.1 + vNormal1.2 * pixf.2 + vOffset1)
          (vNormal2.1 * pixf.1 + vNormal2.2 * pixf.2 + vOffset2)) *
        vPhiCenterScale) 0) sigma) =
      pw (max 0
        (max (vNormal0.1 * pixf.1 + vNormal0.2 * pixf.2 + vOffset0)
          (max (vNormal1.1 * pixf.1 + vNormal1.2 * pixf.2 + vOffset1)
            (vNormal2.1 * pixf.1 + vNormal2.2 * pixf.2 + vOffset2)) *
          vPhiCenterScale)) sigma := by
    rw [max_comm _ (0 : ℚ)]
    exact max_eq_right (hpow _ _ (le_max_left 0 _))
  refine ⟨_, _, rfl, rfl, ?_, ?_, ?_⟩
  · simp only [fragmentMain]
    rw [if_neg hnotdisc, hCx]
    by_cases hα : min (99 / 100) (vTriangleMinWeight *
        pw (max 0
          (max (vNormal0.1 * pixf.1 + vNormal0.2 * pixf.2 + vOffset0)
            (max (vNormal1.1 * pixf.1 + vNormal1.2 * pixf.2 + vOffset1)
              (vNormal2.1 * pixf.1 + vNormal2.2 * pixf.2 + vOffset2)) *
            vPhiCenterScale)) sigma) < 1 / 255
    · rw [if_pos hα]
      exact iff_of_true rfl hα
    · rw [if_neg hα]
      exact iff_of_false (by simp) hα
  · intro hge
    simp only [fragmentMain]
    rw [if_neg hnotdisc, hCx, if_neg (not_lt.mpr hge)]
  · intro p a b c h
    simp only [computeBarycentric]
    rw [if_pos h]

/-- Witness for C4: an interior fragment with all edge distances -1,
pw x y = x, sigma = 1, phi scale -1, min weight 1/2; alpha is 1/2 and the
fragment is kept. -/
theorem C4_fragment_stage_witness :
    ((∀ x y : ℚ, 0 ≤ x → 0 ≤ (fun (a _ : ℚ) => a) x y) ∧
      ((1 : ℚ) * 0 + 0 * 0 + -1 ≤ 0) ∧
      ((0 : ℚ) * 0 + 1 * 0 + -1 ≤ 0) ∧
      ((-1 : ℚ) * 0 + 0 * 0 + -1 ≤ 0)) ∧
    (∃ Cx finalAlpha : ℚ,
      Cx = (fun (a _ : ℚ) => a) (max 0
          (max ((1 : ℚ) * 0 + 0 * 0 + -1)
            (max ((0 : ℚ) * 0 + 1 * 0 + -1) ((-1 : ℚ) * 0 + 0 * 0 + -1)) * -1)) 1 ∧
      finalAlpha = min (99 / 100) (1 / 2 * Cx) ∧
      (fragmentMain (fun (a _ : ℚ) => a) 1 (1, 0) (0, 1) (-1, 0) (-1) (-1) (-1)
          (-1) (1 / 2) (0, 0) (1, 0) (0, 1) (1, 1, 1) (1, 1, 1) (1, 1, 1) (0, 0) =
          none ↔ finalAlpha < 1 / 255) ∧
      ((1 / 255 : ℚ) ≤ finalAlpha →
        fragmentMain (fun (a _ : ℚ) => a) 1 (1, 0) (0, 1) (-1, 0) (-1) (-1) (-1)
            (-1) (1 / 2) (0, 0) (1, 0) (0, 1) (1, 1, 1) (1, 1, 1) (1, 1, 1) (0, 0) =
          some
            ((((computeBarycentric (0, 0) (0, 0) (1, 0) (0, 1)).1 * (1 : ℚ) +
                (computeBarycentric (0, 0) (0, 0) (1, 0) (0, 1)).2.1 * 1 +
                (computeBarycentric (0, 0) (0, 0) (1, 0) (0, 1)).2.2 * 1) * finalAlpha,
              ((computeBarycentric (0, 0) (0, 0) (1, 0) (0, 1)).1 * (1 : ℚ) +
                (computeBarycentric (0, 0) (0, 0) (1, 0) (0, 1)).2.1 * 1 +
                (computeBarycentric (0, 0) (0, 0) (1, 0) (0, 1)).2.2 * 1) * finalAlpha,
              ((computeBarycentric (0, 0) (0, 0) (1, 0) (0, 1)).1 * (1 : ℚ) +
                (computeBarycentric (0, 0) (0, 0) (1, 0) (0, 1)).2.1 * 1 +
                (computeBarycentric (0, 0) (0, 0) (1, 0) (0, 1)).2.2 * 1) * finalAlpha),
            finalAlpha)) ∧
      (∀ p a b c : ℚ × ℚ,
        |(b.1 - a.1) * (c.2 - a.2) - (c.1 - a.1) * (b.2 - a.2)| < 1 / 1000000 →
        computeBarycentric p a b c = (1 / 3, 1 / 3, 1 / 3))) := by
  have h1 : ∀ x y : ℚ, 0 ≤ x → 0 ≤ (fun (a _ : ℚ) => a) x y := fun x _ hx => hx
  have h2 : ((1 : ℚ) * 0 + 0 * 0 + -1 ≤ 0) := by norm_num
  have h3 : ((0 : ℚ) * 0 + 1 * 0 + -1 ≤ 0) := by norm_num
  have h4 : ((-1 : ℚ) * 0 + 0 * 0 + -1 ≤ 0) := by norm_num
  exact ⟨⟨h1, h2, h3, h4⟩,
    C4_fragment_stage (fun (a _ : ℚ) => a) 1 (1, 0) (0, 1) (-1, 0) (-1) (-1) (-1)
      (-1) (1 / 2) (0, 0) (1, 0) (0, 1) (1, 1, 1) (1, 1, 1) (1, 1, 1) (0, 0)
      h1 h2 h3 h4⟩

end Viser
